import Mathlib

/-!
goworkers: thread-claiming workers.

A verification development for `src/workers/workers.go`.

The Go package spreads a worker function over goroutines that each run on their own OS
thread.  A goroutine (a *Claimer*) repeatedly binds itself to the thread it is running on, reads
the thread id and tries to register that id in a mutex-guarded map; on success it runs the
worker, deletes its id and signals a `sync.WaitGroup`; after too many failures it gives up and
signals the `WaitGroup` without running the worker.

The file has three layers, all translated from the Go source:

* the registry map and the check-and-register step (`tryClaim`);
* `find_unused_thread` as a function of what a run meets at each attempt (the thread id
  it reads and the content of the registry while it holds the mutex), returning the calls the
  run makes and whether it has returned; `Distribute` and `Fill` as the sequence of effects
  they perform;
* a statement-level interleaving semantics (`step`, `exec`, `Reachable`) of one `Distribute`
  call and the Claimers it starts, with the registry mutex modelled explicitly.

Go's `int` is taken to be 64 bits wide and is modelled by `Int` with explicit wrap-around
(`wrapInt`) where a value can leave the range: the product `find_retries*num_threads` and
the increment `i++` of `for i := 0; i <= tries; i++`, which wraps when `tries` is the largest
64-bit integer (a value `Distribute` never passes, `wrapInt_find_retries_ne_max`).  The
counter of `for i := 0; i < num_threads; i++` stays below `num_threads` and cannot wrap.
The worker is a black box: it is assumed to return and not to touch the registry, which is
private to one `Distribute` call.  Thread ids are whatever `syscall.Gettid()` returns; no
assumption is made about them.
-/

namespace workers

/-! ## The registry map -/

/-- The constant `find_retries` of `workers.go`. -/
def find_retries : Int := 1000

/-- Two's-complement wrap-around of a 64-bit Go `int`. -/
def wrapInt (x : Int) : Int := (x + 2 ^ 63) % 2 ^ 64 - 2 ^ 63

/-- A Go `map[int]bool`: an association list, newest binding first. -/
abbrev PidMap := List (Int × Bool)

/-- The keys of a map. -/
def mapKeys (m : PidMap) : List Int := m.map Prod.fst

/-- The comma-ok read `v, ok := m[k]`: `some v` when `k` is a key, `none` otherwise. -/
def mapLookup : PidMap → Int → Option Bool
  | [], _ => none
  | (a, b) :: rest, k => if a = k then some b else mapLookup rest k

/-- The builtin `delete(m, k)`. -/
def mapDelete : PidMap → Int → PidMap
  | [], _ => []
  | (a, b) :: rest, k => if a = k then mapDelete rest k else (a, b) :: mapDelete rest k

/-- The assignment `m[k] = v`. -/
def mapSet (m : PidMap) (k : Int) (v : Bool) : PidMap :=
  (k, v) :: mapDelete m k

/-- The struct `pidRegistry`: the map `pids` and the mutex `lock` (`true` = held). -/
structure pidRegistry where
  pids : PidMap
  lock : Bool
deriving DecidableEq

/-- Lines 26-27 and 36 of `find_unused_thread`, the body of the critical section of one
attempt: `if _, taken := reg.pids[pid]; !taken { reg.pids[pid] = true ... } else { ... }`.
Returns whether the claim succeeded and the map afterwards. -/
def tryClaim (m : PidMap) (pid : Int) : Bool × PidMap :=
  match mapLookup m pid with
  | some _ => (false, m)
  | none => (true, mapSet m pid true)

/-! ## One run of `find_unused_thread` -/

/-- The calls one run of `find_unused_thread` makes, in program order; `register pid` is
the assignment `reg.pids[pid] = true` of line 27 and `delete pid` the `delete(reg.pids, pid)`
of line 32. -/
inductive Call
  | lock
  | lockOSThread
  | gettid (pid : Int)
  | register (pid : Int)
  | unlock
  | gosched
  | worker
  | delete (pid : Int)
  | unlockOSThread
  | logGiveUp
  | wgDone
deriving DecidableEq

/-- The calls of an iteration whose claim succeeds, lines 23-35, ending in `return`. -/
def claimedCalls (pid : Int) : List Call :=
  [Call.lock, Call.lockOSThread, Call.gettid pid, Call.register pid, Call.unlock,
    Call.gosched, Call.worker, Call.lock, Call.delete pid, Call.unlock, Call.wgDone]

/-- The calls of an iteration whose claim fails, lines 23-26 and 36-38. -/
def failedCalls (pid : Int) : List Call :=
  [Call.lock, Call.lockOSThread, Call.gettid pid, Call.unlock, Call.unlockOSThread]

/-- The calls after the loop, lines 41-42. -/
def giveUpCalls : List Call := [Call.logGiveUp, Call.wgDone]

/-- The `for` loop of `find_unused_thread` (lines 22-40) followed by lines 41-42.
`env k` is what attempt number `k` meets: the thread id `syscall.Gettid()` returns and the
content of `reg.pids` while the attempt holds the mutex (other goroutines may have changed
the registry since the previous attempt).  `i` is the loop counter, a 64-bit integer
incremented with wrap-around.  The calls `Lock()`, `Gosched()` and `worker()` are taken to
return.  The first argument bounds how often the loop condition `i <= tries` is evaluated.
The result is the calls made and whether the function has returned; `false` means the loop
is still running after that many evaluations. -/
def find_unused_thread.loop (tries : Int) (env : Nat → Int × PidMap) :
    Nat → Nat → Int → List Call × Bool
  | 0, _, _ => ([], false)
  | fuel + 1, k, i =>
    if i ≤ tries then
      match tryClaim (env k).2 (env k).1 with
      | (true, _) => (claimedCalls (env k).1, true)
      | (false, _) =>
        let r := find_unused_thread.loop tries env fuel (k + 1) (wrapInt (i + 1))
        (failedCalls (env k).1 ++ r.1, r.2)
    else (giveUpCalls, true)

/-- The function `find_unused_thread(tries, wg, reg, worker)`, started with `i := 0`, run
for at most `fuel` evaluations of the loop condition. -/
def find_unused_thread (tries : Int) (env : Nat → Int × PidMap) (fuel : Nat) :
    List Call × Bool :=
  find_unused_thread.loop tries env fuel 0 0

/-- The effect of the calls of a run on a registry map that no other goroutine touches. -/
def replay : PidMap → List Call → PidMap
  | m, [] => m
  | m, Call.register pid :: rest => replay (mapSet m pid true) rest
  | m, Call.delete pid :: rest => replay (mapDelete m pid) rest
  | m, _ :: rest => replay m rest

/-- Number of claim attempts of a run: iterations that locked the registry and tested the
current thread id (one `Gettid` call each). -/
def attempts (t : List Call) : Nat :=
  t.countP (fun c => match c with | Call.gettid _ => true | _ => false)

/-- Number of `worker()` invocations of a run. -/
def workerCalls (t : List Call) : Nat := t.count Call.worker

/-- Number of `wg.Done()` calls of a run. -/
def doneCalls (t : List Call) : Nat := t.count Call.wgDone

/-- Number of give-up log lines of a run. -/
def giveUps (t : List Call) : Nat := t.count Call.logGiveUp

/-! ## `Distribute` and `Fill` as effect sequences -/

/-- The effects `Distribute` and `Fill` perform.  `wg` and `reg` are the addresses of the
`sync.WaitGroup` and of the `pidRegistry` the statement refers to. -/
inductive Effect
  | newWaitGroup (wg : Nat)
  | logSpawning (procs : Int)
  | makeRegistry (reg : Nat) (hint : Int)
  | wgAdd (wg : Nat) (delta : Int)
  | goFind (tries : Int) (wg : Nat) (reg : Nat)
deriving DecidableEq

/-- The loop of `Distribute` (lines 49-52); the argument counts the iterations the loop
condition `i < num_threads` still admits. -/
def Distribute.loop (num_threads : Int) (wg reg : Nat) : Nat → List Effect
  | 0 => []
  | remaining + 1 =>
    Effect.wgAdd wg 1 ::
      Effect.goFind (wrapInt (find_retries * num_threads)) wg reg ::
        Distribute.loop num_threads wg reg remaining

/-- The function `Distribute(num_threads, wg, worker)`; `reg` is the address of the registry
that line 47 allocates with `num_threads` as capacity hint (a hint does not change the
content of the new map, which is empty).  `for i := 0; i < num_threads; i++` admits
`num_threads` iterations when `num_threads >= 0` and none otherwise. -/
def Distribute (num_threads : Int) (wg reg : Nat) : List Effect :=
  Effect.makeRegistry reg num_threads ::
    Distribute.loop num_threads wg reg num_threads.toNat

/-- The function `Fill(worker)`: `procs` is the value `runtime.GOMAXPROCS(0)` returns, `wg`
the address `new(sync.WaitGroup)` returns and `reg` the address of the registry `Distribute`
allocates.  Returns the returned `WaitGroup` address and the effects performed. -/
def Fill (procs : Int) (wg reg : Nat) : Nat × List Effect :=
  (wg, Effect.newWaitGroup wg :: Effect.logSpawning procs :: Distribute procs wg reg)

/-- The count of the `WaitGroup` at address `wg` after a sequence of effects; `c` is its
count before (`none`: not yet allocated).  `new(sync.WaitGroup)` yields count zero. -/
def barrierAfter (wg : Nat) (c : Option Int) : List Effect → Option Int
  | [] => c
  | Effect.newWaitGroup w :: es =>
    barrierAfter wg (if w = wg then some 0 else c) es
  | Effect.wgAdd w d :: es =>
    barrierAfter wg (if w = wg then c.map (fun x => x + d) else c) es
  | _ :: es => barrierAfter wg c es

/-- The goroutines started by a sequence of effects: the `go find_unused_thread(...)`
statements, in order. -/
def spawns (es : List Effect) : List Effect :=
  es.filter (fun e => match e with | Effect.goFind _ _ _ => true | _ => false)

/-- The registries created by a sequence of effects, as (address, capacity hint); a registry
is created with an empty map. -/
def registriesMade : List Effect → List (Nat × Int)
  | [] => []
  | Effect.makeRegistry r h :: es => (r, h) :: registriesMade es
  | _ :: es => registriesMade es

/-! ## Interleaving semantics of one `Distribute` call -/

/-- Program points of one `find_unused_thread` goroutine.  A point named after line `N` means
that line `N` of `workers.go` is the next statement the goroutine executes; `inWorker` means
the call `worker()` of line 30 has started and has not returned.  `i` is the loop counter and
`pid` the local variable of that name. -/
inductive PC
  | forTest (i : Int)
  | lock23 (i : Int)
  | lockOSThread24 (i : Int)
  | gettid25 (i : Int)
  | check26 (i : Int) (pid : Int)
  | register27 (pid : Int)
  | unlock28 (pid : Int)
  | gosched29 (pid : Int)
  | call30 (pid : Int)
  | inWorker (pid : Int)
  | lock31 (pid : Int)
  | delete32 (pid : Int)
  | unlock33 (pid : Int)
  | done34
  | unlock37 (i : Int)
  | unlockOSThread38 (i : Int)
  | log41
  | done42
  | exited
deriving DecidableEq

/-- One goroutine started by `go find_unused_thread(tries, wg, reg, worker)`. -/
structure Claimer where
  tries : Int
  pc : PC
deriving DecidableEq

/-- One statement of `find_unused_thread`, executed at program point `pc`.  `tid` is the id of
the OS thread the goroutine is on (read only by line 25).  `Lock()` on a held mutex is not
enabled (`none`), as is any step of a goroutine that has returned.  `wg.Done()` lowers the
count by one; `i++` wraps around like a 64-bit integer.  Returns the next program point,
the registry and the `WaitGroup` count. -/
def claimerStep (tid tries : Int) (pc : PC) (reg : pidRegistry) (wg : Int) :
    Option (PC × pidRegistry × Int) :=
  match pc with
  | PC.forTest i =>
    if i ≤ tries then some (PC.lock23 i, reg, wg) else some (PC.log41, reg, wg)
  | PC.lock23 i =>
    if reg.lock then none else some (PC.lockOSThread24 i, { reg with lock := true }, wg)
  | PC.lockOSThread24 i => some (PC.gettid25 i, reg, wg)
  | PC.gettid25 i => some (PC.check26 i tid, reg, wg)
  | PC.check26 i pid =>
    match mapLookup reg.pids pid with
    | none => some (PC.register27 pid, reg, wg)
    | some _ => some (PC.unlock37 i, reg, wg)
  | PC.register27 pid =>
    some (PC.unlock28 pid, { reg with pids := mapSet reg.pids pid true }, wg)
  | PC.unlock28 pid => some (PC.gosched29 pid, { reg with lock := false }, wg)
  | PC.gosched29 pid => some (PC.call30 pid, reg, wg)
  | PC.call30 pid => some (PC.inWorker pid, reg, wg)
  | PC.inWorker pid => some (PC.lock31 pid, reg, wg)
  | PC.lock31 pid =>
    if reg.lock then none else some (PC.delete32 pid, { reg with lock := true }, wg)
  | PC.delete32 pid =>
    some (PC.unlock33 pid, { reg with pids := mapDelete reg.pids pid }, wg)
  | PC.unlock33 _ => some (PC.done34, { reg with lock := false }, wg)
  | PC.done34 => some (PC.exited, reg, wg - 1)
  | PC.unlock37 i => some (PC.unlockOSThread38 i, { reg with lock := false }, wg)
  | PC.unlockOSThread38 i => some (PC.forTest (wrapInt (i + 1)), reg, wg)
  | PC.log41 => some (PC.done42, reg, wg)
  | PC.done42 => some (PC.exited, reg, wg - 1)
  | PC.exited => none

/-- The state of one `Distribute` call: the statements `Distribute` has still to execute, the
count of the `WaitGroup`, the registry, and the goroutines started so far in start order. -/
structure System where
  todo : List Effect
  wg : Int
  reg : pidRegistry
  claimers : List Claimer
deriving DecidableEq

/-- Executes one effect of `Distribute` on the state. -/
def applyEffect (s : System) : Effect → System
  | Effect.newWaitGroup _ => { s with wg := 0 }
  | Effect.logSpawning _ => s
  | Effect.makeRegistry _ _ => { s with reg := { pids := [], lock := false } }
  | Effect.wgAdd _ d => { s with wg := s.wg + d }
  | Effect.goFind tries _ _ =>
    { s with claimers := s.claimers ++ [{ tries := tries, pc := PC.forTest 0 }] }

/-- A scheduling choice: `Distribute` executes its next statement, or goroutine `k` executes
its next statement while on OS thread `tid`. -/
inductive Action
  | distribute
  | claimer (k : Nat) (tid : Int)
deriving DecidableEq

/-- One step of the system; `none` when the chosen goroutine cannot move. -/
def step (s : System) : Action → Option System
  | Action.distribute =>
    match s.todo with
    | [] => none
    | e :: rest => some (applyEffect { s with todo := rest } e)
  | Action.claimer k tid =>
    match s.claimers[k]? with
    | none => none
    | some c =>
      match claimerStep tid c.tries c.pc s.reg s.wg with
      | none => none
      | some (pc, reg, wg) =>
        some { s with wg := wg, reg := reg, claimers := s.claimers.set k { c with pc := pc } }

/-- Runs a schedule from a state. -/
def exec (s : System) : List Action → Option System
  | [] => some s
  | a :: rest =>
    match step s a with
    | none => none
    | some s1 => exec s1 rest

/-- The state in which `Distribute(num_threads, wg, worker)` is called on a `WaitGroup` whose
count is `c`.  The system holds one `WaitGroup` and one registry, so their addresses are
immaterial and fixed to `0`. -/
def start (num_threads c : Int) : System :=
  { todo := Distribute num_threads 0 0, wg := c, reg := { pids := [], lock := false },
    claimers := [] }

/-- The states some schedule reaches from the call `Distribute(num_threads, wg, worker)`. -/
def Reachable (num_threads c : Int) (s : System) : Prop :=
  ∃ sched : List Action, exec (start num_threads c) sched = some s

/-- The thread id a goroutine holds a claim on: it has executed `reg.pids[pid] = true`
(line 27) and not yet `delete(reg.pids, pid)` (line 32). -/
def claimOf : PC → Option Int
  | PC.unlock28 pid => some pid
  | PC.gosched29 pid => some pid
  | PC.call30 pid => some pid
  | PC.inWorker pid => some pid
  | PC.lock31 pid => some pid
  | PC.delete32 pid => some pid
  | _ => none

/-- The thread id under which a goroutine's worker invocation is currently running (started
and not yet returned). -/
def runningOn : PC → Option Int
  | PC.inWorker pid => some pid
  | _ => none

/-- Program points at which the goroutine holds the registry mutex. -/
def holdsLock : PC → Bool
  | PC.lockOSThread24 _ => true
  | PC.gettid25 _ => true
  | PC.check26 _ _ => true
  | PC.register27 _ => true
  | PC.unlock28 _ => true
  | PC.delete32 _ => true
  | PC.unlock33 _ => true
  | PC.unlock37 _ => true
  | _ => false

/-- Whether a goroutine has not yet called `wg.Done()`. -/
def notDone (c : Claimer) : Bool := decide (c.pc ≠ PC.exited)

/-- Number of started goroutines that have not yet called `wg.Done()`. -/
def liveCount (s : System) : Nat := s.claimers.countP notDone

/-- Number of started goroutines that have called `wg.Done()`. -/
def doneCount (s : System) : Nat := s.claimers.countP (fun c => decide (c.pc = PC.exited))

/-- Whether `Distribute` stands between `wg.Add(1)` (line 50) and the `go` statement
(line 51): `1` if the next statement is the `go`, else `0`. -/
def pendingAdd : List Effect → Int
  | Effect.goFind _ _ _ :: _ => 1
  | _ => 0

/-- Whether `Distribute` has returned. -/
def returned (s : System) : Prop := s.todo = []

/-! ## Concrete schedules and states -/

/-- The fourteen statements of a goroutine whose first attempt succeeds on thread `tid`, from
the loop test of line 22 to the `wg.Done()` of line 34. -/
def successfulRun (k : Nat) (tid : Int) : List Action :=
  List.replicate 14 (Action.claimer k tid)

/-- A schedule of `Distribute(1, ...)`: the three statements of `Distribute`, then the first
`m` statements of the goroutine on thread `5`. -/
def oneClaimer (m : Nat) : List Action :=
  [Action.distribute, Action.distribute, Action.distribute]
    ++ (successfulRun 0 5).take m

/-- The state of `Distribute(1, ...)` in which the goroutine has registered thread `5`,
released the mutex and yielded, and is about to call the worker (line 30). -/
def registeredNotStarted : System :=
  { todo := [], wg := 1, reg := { pids := [(5, true)], lock := false },
    claimers := [{ tries := 1000, pc := PC.call30 5 }] }

/-- The state of `Distribute(1, ...)` in which the worker has returned and the goroutine is
about to lock the registry (line 31) to delete its id. -/
def returnedNotReleased : System :=
  { todo := [], wg := 1, reg := { pids := [(5, true)], lock := false },
    claimers := [{ tries := 1000, pc := PC.lock31 5 }] }

/-- The state of `Distribute(1, ...)` after the goroutine has run to its end. -/
def oneFinished : System :=
  { todo := [], wg := 0, reg := { pids := [], lock := false },
    claimers := [{ tries := 1000, pc := PC.exited }] }

/-- The state of `Distribute(n, ...)` on a barrier with count `0` right after the first
`wg.Add(1)`: the first `go` statement is next and no goroutine exists yet. -/
def firstSpawnPending (n : Nat) : System :=
  { todo := Effect.goFind (wrapInt (find_retries * n)) 0 0
      :: Distribute.loop n 0 0 (n - 1),
    wg := 1, reg := { pids := [], lock := false }, claimers := [] }

/-- A schedule of `Distribute(2, ...)` after which both goroutines are inside the worker,
on threads `5` and `6`. -/
def twoRunningSchedule : List Action :=
  List.replicate 5 Action.distribute
    ++ (successfulRun 0 5).take 9 ++ (successfulRun 1 6).take 9

/-- The state `twoRunningSchedule` leads to. -/
def twoRunning : System :=
  { todo := [], wg := 2, reg := { pids := [(6, true), (5, true)], lock := false },
    claimers := [{ tries := 2000, pc := PC.inWorker 5 }, { tries := 2000, pc := PC.inWorker 6 }] }

/-- A system holding a single goroutine `find_unused_thread(tries, wg, reg, worker)` that is
about to test its loop condition with counter `i`, on a registry with map `m` and a barrier
with count `w`. -/
def solo (tries i : Int) (m : PidMap) (w : Int) : System :=
  { todo := [], wg := w, reg := { pids := m, lock := false },
    claimers := [{ tries := tries, pc := PC.forTest i }] }

/-- The schedule that runs the goroutine of `solo` when attempt `k` observes thread id
`obs k` and no other goroutine touches the map `m`: seven statements for an attempt that
fails, fourteen for one that succeeds, three for the give-up exit.  The arguments are those
of `find_unused_thread.loop`. -/
def soloSchedule (tries : Int) (obs : Nat → Int) (m : PidMap) : Nat → Nat → Int → List Action
  | 0, _, _ => []
  | fuel + 1, k, i =>
    if i ≤ tries then
      if (tryClaim m (obs k)).1 then List.replicate 14 (Action.claimer 0 (obs k))
      else List.replicate 7 (Action.claimer 0 (obs k))
        ++ soloSchedule tries obs m fuel (k + 1) (wrapInt (i + 1))
    else List.replicate 3 (Action.claimer 0 (obs k))

/-- The state of `Distribute(2, ...)` in which the first goroutine is inside the worker on
thread `5` and the second one is about to test its loop condition with counter `i`. -/
def siblingRunning (i : Int) : System :=
  { todo := [], wg := 2, reg := { pids := [(5, true)], lock := false },
    claimers := [{ tries := 2000, pc := PC.inWorker 5 }, { tries := 2000, pc := PC.forTest i }] }

/-- The state of `Distribute(2, ...)` in which the first goroutine is inside the worker on
thread `5` and the second one has given up and returned. -/
def siblingGaveUp : System :=
  { todo := [], wg := 1, reg := { pids := [(5, true)], lock := false },
    claimers := [{ tries := 2000, pc := PC.inWorker 5 }, { tries := 2000, pc := PC.exited }] }

/-! ## Invariants of the interleaving semantics -/

/-- What one statement of a goroutine does to the shared state: how it moves between program
points that hold the mutex and those that do not, how it changes the map, and how it changes
the `WaitGroup` count. -/
structure StepFacts (pc pc1 : PC) (reg reg1 : pidRegistry) (wg wg1 : Int) : Prop where
  acquire : holdsLock pc1 = true → holdsLock pc = false → reg.lock = false ∧ reg1.lock = true
  keep : holdsLock pc1 = true → holdsLock pc = true → reg1.lock = reg.lock
  outside : holdsLock pc = false → holdsLock pc1 = false → reg1 = reg
  pids_outside : holdsLock pc = false → reg1.pids = reg.pids
  pids : (claimOf pc1 = claimOf pc ∧ reg1.pids = reg.pids) ∨
    (∃ pid, pc = PC.register27 pid ∧ pc1 = PC.unlock28 pid ∧
      reg1.pids = mapSet reg.pids pid true) ∨
    (∃ pid, pc = PC.delete32 pid ∧ pc1 = PC.unlock33 pid ∧
      reg1.pids = mapDelete reg.pids pid)
  fresh : ∀ pid, pc1 = PC.register27 pid → mapLookup reg.pids pid = none
  count : pc ≠ PC.exited ∧ wg1 = wg - (if pc1 = PC.exited then 1 else 0)

/-- The invariant tying the registry to the goroutines: at most one goroutine is inside a
critical section and then the mutex is held; the keys of the map are exactly the claimed
thread ids; no two goroutines claim the same id; an id about to be registered is not a key. -/
structure RegInv (reg : pidRegistry) (l : List Claimer) : Prop where
  mutex : ∀ (i j : Nat) (ci cj : Claimer), l[i]? = some ci → l[j]? = some cj →
    holdsLock ci.pc = true → holdsLock cj.pc = true → i = j
  locked : ∀ (i : Nat) (ci : Claimer), l[i]? = some ci → holdsLock ci.pc = true → reg.lock = true
  keys : ∀ q, q ∈ mapKeys reg.pids ↔ ∃ (i : Nat) (ci : Claimer), l[i]? = some ci ∧ claimOf ci.pc = some q
  excl : ∀ (i j : Nat) (ci cj : Claimer) (q : Int), l[i]? = some ci → l[j]? = some cj →
    claimOf ci.pc = some q → claimOf cj.pc = some q → i = j
  fresh : ∀ (i : Nat) (ci : Claimer) (q : Int), l[i]? = some ci → ci.pc = PC.register27 q → q ∉ mapKeys reg.pids

/-- The invariant of the whole system started by `Distribute(n, wg, worker)` on a barrier
with count `c`: the registry invariant, the shape of what `Distribute` has still to do, the
number of goroutines, and the barrier count. -/
structure Inv (n c : Int) (s : System) : Prop where
  reg : RegInv s.reg s.claimers
  shape : (s.todo = Distribute n 0 0 ∧ s.claimers = []) ∨
    ∃ k, s.todo = Distribute.loop n 0 0 k ∨
      s.todo = Effect.goFind (wrapInt (find_retries * n)) 0 0 :: Distribute.loop n 0 0 k
  spawned : s.claimers.length + (spawns s.todo).length = n.toNat
  barrier : s.wg = c + liveCount s + pendingAdd s.todo
  retries : ∀ cl ∈ s.claimers, cl.tries = wrapInt (find_retries * n)

/-! ## Facts about the registry map -/

theorem mapLookup_eq_none_iff (m : PidMap) (k : Int) :
    mapLookup m k = none ↔ k ∉ mapKeys m := by
  induction m with
  | nil => simp [mapLookup, mapKeys]
  | cons e rest ih =>
    obtain ⟨a, b⟩ := e
    simp only [mapKeys] at ih
    by_cases h : a = k
    · simp [mapLookup, mapKeys, h]
    · have h2 : ¬ k = a := fun e => h e.symm
      simp [mapLookup, mapKeys, h, h2, ih]

theorem mapLookup_mapDelete (m : PidMap) (p q : Int) :
    mapLookup (mapDelete m p) q = if q = p then none else mapLookup m q := by
  induction m with
  | nil => simp [mapLookup, mapDelete]
  | cons e rest ih =>
    obtain ⟨a, b⟩ := e
    by_cases ha : a = p
    · subst ha
      by_cases hq : q = a
      · subst hq
        simpa [mapDelete] using ih
      · have h2 : ¬ a = q := fun e => hq e.symm
        simp [mapDelete, mapLookup, ih, hq, h2]
    · by_cases hq : a = q
      · subst hq
        simp [mapDelete, mapLookup, ha]
      · simp [mapDelete, mapLookup, ha, hq, ih]

theorem mapLookup_mapSet (m : PidMap) (p q : Int) (v : Bool) :
    mapLookup (mapSet m p v) q = if q = p then some v else mapLookup m q := by
  by_cases hq : q = p
  · subst hq
    simp [mapSet, mapLookup]
  · have h2 : ¬ p = q := fun e => hq e.symm
    simp [mapSet, mapLookup, h2, hq, mapLookup_mapDelete]

theorem mem_mapKeys_mapDelete (m : PidMap) (p q : Int) :
    q ∈ mapKeys (mapDelete m p) ↔ q ≠ p ∧ q ∈ mapKeys m := by
  induction m with
  | nil => simp [mapKeys, mapDelete]
  | cons e rest ih =>
    obtain ⟨a, b⟩ := e
    simp only [mapKeys] at ih
    by_cases ha : a = p
    · subst ha
      simp only [mapDelete, if_true, mapKeys, ih, List.map_cons, List.mem_cons]
      constructor
      · rintro ⟨h1, h2⟩
        exact ⟨h1, Or.inr h2⟩
      · rintro ⟨h1, h2 | h2⟩
        · exact absurd h2 h1
        · exact ⟨h1, h2⟩
    · simp only [mapDelete, ha, if_false, mapKeys, List.map_cons, List.mem_cons, ih]
      constructor
      · rintro (h | ⟨h1, h2⟩)
        · exact ⟨fun e => ha (h ▸ e), Or.inl h⟩
        · exact ⟨h1, Or.inr h2⟩
      · rintro ⟨h1, h2 | h2⟩
        · exact Or.inl h2
        · exact Or.inr ⟨h1, h2⟩

theorem mem_mapKeys_mapSet (m : PidMap) (p q : Int) (v : Bool) :
    q ∈ mapKeys (mapSet m p v) ↔ q = p ∨ q ∈ mapKeys m := by
  have h := mem_mapKeys_mapDelete m p q
  simp only [mapKeys] at h
  simp only [mapSet, mapKeys, List.map_cons, List.mem_cons, h]
  constructor
  · rintro (h1 | ⟨_, h2⟩)
    · exact Or.inl h1
    · exact Or.inr h2
  · rintro (h1 | h2)
    · exact Or.inl h1
    · by_cases hq : q = p
      · exact Or.inl hq
      · exact Or.inr ⟨hq, h2⟩

theorem mapKeys_eq_nil (m : PidMap) (h : ∀ q, q ∉ mapKeys m) : m = [] := by
  cases m with
  | nil => rfl
  | cons e rest => exact absurd (by simp [mapKeys]) (h e.1)

theorem tryClaim_of_taken (m : PidMap) (p : Int) (h : p ∈ mapKeys m) :
    tryClaim m p = (false, m) := by
  have h1 : mapLookup m p ≠ none := fun hn => (mapLookup_eq_none_iff m p).1 hn h
  unfold tryClaim
  cases hl : mapLookup m p with
  | none => exact absurd hl h1
  | some b => rfl

theorem tryClaim_of_free (m : PidMap) (p : Int) (h : p ∉ mapKeys m) :
    tryClaim m p = (true, mapSet m p true) := by
  have h1 : mapLookup m p = none := (mapLookup_eq_none_iff m p).2 h
  simp [tryClaim, h1]

/-- Claim C7.  One check-and-register step on map `m` with thread id `p` succeeds exactly
when `p` is not a key of `m`; on success the resulting map binds `p` to `true` and reads
like `m` at every other key; on failure the resulting map is `m` itself. -/
theorem tryClaim_contract (m : PidMap) (p : Int) :
    ((tryClaim m p).1 = true ↔ p ∉ mapKeys m) ∧
    ((tryClaim m p).1 = true →
      ∀ q, mapLookup (tryClaim m p).2 q = if q = p then some true else mapLookup m q) ∧
    ((tryClaim m p).1 = false → (tryClaim m p).2 = m) := by
  by_cases h : p ∈ mapKeys m
  · simp [tryClaim_of_taken m p h, h]
  · simp only [tryClaim_of_free m p h, h, not_false_eq_true, iff_true, true_and]
    refine ⟨fun _ q => mapLookup_mapSet m p q true, ?_⟩
    intro hf
    exact absurd hf (by simp)

/-! ## One run of `find_unused_thread` -/

theorem counts_claimedCalls (pid : Int) :
    attempts (claimedCalls pid) = 1 ∧ workerCalls (claimedCalls pid) = 1 ∧
    doneCalls (claimedCalls pid) = 1 ∧ giveUps (claimedCalls pid) = 0 := by
  simp [attempts, workerCalls, doneCalls, giveUps, claimedCalls]

theorem counts_failedCalls (pid : Int) :
    attempts (failedCalls pid) = 1 ∧ workerCalls (failedCalls pid) = 0 ∧
    doneCalls (failedCalls pid) = 0 ∧ giveUps (failedCalls pid) = 0 := by
  simp [attempts, workerCalls, doneCalls, giveUps, failedCalls]

theorem counts_giveUpCalls :
    attempts giveUpCalls = 0 ∧ workerCalls giveUpCalls = 0 ∧
    doneCalls giveUpCalls = 1 ∧ giveUps giveUpCalls = 1 := by
  simp [attempts, workerCalls, doneCalls, giveUps, giveUpCalls]

theorem attempts_append (a b : List Call) : attempts (a ++ b) = attempts a + attempts b := by
  simp [attempts]

theorem workerCalls_append (a b : List Call) :
    workerCalls (a ++ b) = workerCalls a + workerCalls b := by
  simp [workerCalls]

theorem doneCalls_append (a b : List Call) : doneCalls (a ++ b) = doneCalls a + doneCalls b := by
  simp [doneCalls]

theorem giveUps_append (a b : List Call) : giveUps (a ++ b) = giveUps a + giveUps b := by
  simp [giveUps]

theorem loop_zero (tries : Int) (env : Nat → Int × PidMap) (k : Nat) (i : Int) :
    find_unused_thread.loop tries env 0 k i = ([], false) := rfl

theorem loop_exit (tries : Int) (env : Nat → Int × PidMap) (fuel k : Nat) (i : Int)
    (h : ¬ i ≤ tries) :
    find_unused_thread.loop tries env (fuel + 1) k i = (giveUpCalls, true) := by
  simp [find_unused_thread.loop, h]

theorem loop_free (tries : Int) (env : Nat → Int × PidMap) (fuel k : Nat) (i : Int)
    (h : i ≤ tries) (hfree : (env k).1 ∉ mapKeys (env k).2) :
    find_unused_thread.loop tries env (fuel + 1) k i = (claimedCalls (env k).1, true) := by
  simp [find_unused_thread.loop, h, tryClaim_of_free _ _ hfree]

theorem loop_taken (tries : Int) (env : Nat → Int × PidMap) (fuel k : Nat) (i : Int)
    (h : i ≤ tries) (htaken : (env k).1 ∈ mapKeys (env k).2) :
    find_unused_thread.loop tries env (fuel + 1) k i =
      (failedCalls (env k).1
          ++ (find_unused_thread.loop tries env fuel (k + 1) (wrapInt (i + 1))).1,
        (find_unused_thread.loop tries env fuel (k + 1) (wrapInt (i + 1))).2) := by
  simp [find_unused_thread.loop, h, tryClaim_of_taken _ _ htaken]

/-- A run that has returned has called `wg.Done()` exactly once, as its last call, and has
taken exactly one of the two exits: the worker ran, or the give-up line was logged. -/
theorem loop_returned (tries : Int) (env : Nat → Int × PidMap) (fuel : Nat) :
    ∀ (k : Nat) (i : Int), (find_unused_thread.loop tries env fuel k i).2 = true →
      doneCalls (find_unused_thread.loop tries env fuel k i).1 = 1 ∧
      (find_unused_thread.loop tries env fuel k i).1.getLast? = some Call.wgDone ∧
      workerCalls (find_unused_thread.loop tries env fuel k i).1
        + giveUps (find_unused_thread.loop tries env fuel k i).1 = 1 := by
  induction fuel with
  | zero =>
    intro k i h
    simp [loop_zero] at h
  | succ fuel ih =>
    intro k i h
    by_cases hi : i ≤ tries
    · by_cases hk : (env k).1 ∈ mapKeys (env k).2
      · rw [loop_taken tries env fuel k i hi hk] at h ⊢
        obtain ⟨h1, h2, h3⟩ := ih (k + 1) (wrapInt (i + 1)) h
        have hf := counts_failedCalls (env k).1
        refine ⟨?_, ?_, ?_⟩
        · simp only [doneCalls_append, hf.2.2.1, h1]
        · simp only [List.getLast?_append, h2]
          rfl
        · simp only [workerCalls_append, giveUps_append, hf.2.1, hf.2.2.2]
          omega
      · rw [loop_free tries env fuel k i hi hk]
        have hc := counts_claimedCalls (env k).1
        refine ⟨hc.2.2.1, by simp [claimedCalls], ?_⟩
        simp only [hc.2.1, hc.2.2.2]
    · rw [loop_exit tries env fuel k i hi]
      have hg := counts_giveUpCalls
      refine ⟨hg.2.2.1, by simp [giveUpCalls], ?_⟩
      simp only [hg.2.1, hg.2.2.2]

/-- A run that has not returned has made one failed attempt per evaluation of the loop
condition and has called neither the worker nor `wg.Done()`. -/
theorem loop_running (tries : Int) (env : Nat → Int × PidMap) (fuel : Nat) :
    ∀ (k : Nat) (i : Int), (find_unused_thread.loop tries env fuel k i).2 = false →
      attempts (find_unused_thread.loop tries env fuel k i).1 = fuel ∧
      workerCalls (find_unused_thread.loop tries env fuel k i).1 = 0 ∧
      doneCalls (find_unused_thread.loop tries env fuel k i).1 = 0 ∧
      giveUps (find_unused_thread.loop tries env fuel k i).1 = 0 := by
  induction fuel with
  | zero =>
    intro k i _
    simp [loop_zero, attempts, workerCalls, doneCalls, giveUps]
  | succ fuel ih =>
    intro k i h
    by_cases hi : i ≤ tries
    · by_cases hk : (env k).1 ∈ mapKeys (env k).2
      · rw [loop_taken tries env fuel k i hi hk] at h ⊢
        obtain ⟨h1, h2, h3, h4⟩ := ih (k + 1) (wrapInt (i + 1)) h
        have hf := counts_failedCalls (env k).1
        simp only [attempts_append, workerCalls_append, doneCalls_append, giveUps_append,
          hf.1, hf.2.1, hf.2.2.1, hf.2.2.2, h1, h2, h3, h4]
        exact ⟨by omega, trivial, trivial, trivial⟩
      · rw [loop_free tries env fuel k i hi hk] at h
        simp at h
    · rw [loop_exit tries env fuel k i hi] at h
      simp at h

/-- Once a run has returned, more fuel does not change it. -/
theorem loop_returned_succ (tries : Int) (env : Nat → Int × PidMap) (fuel : Nat) :
    ∀ (k : Nat) (i : Int), (find_unused_thread.loop tries env fuel k i).2 = true →
      find_unused_thread.loop tries env (fuel + 1) k i
        = find_unused_thread.loop tries env fuel k i := by
  induction fuel with
  | zero =>
    intro k i h
    simp [loop_zero] at h
  | succ fuel ih =>
    intro k i h
    by_cases hi : i ≤ tries
    · by_cases hk : (env k).1 ∈ mapKeys (env k).2
      · rw [loop_taken tries env fuel k i hi hk] at h
        rw [loop_taken tries env (fuel + 1) k i hi hk, loop_taken tries env fuel k i hi hk,
          ih (k + 1) (wrapInt (i + 1)) h]
      · rw [loop_free tries env (fuel + 1) k i hi hk, loop_free tries env fuel k i hi hk]
    · rw [loop_exit tries env (fuel + 1) k i hi, loop_exit tries env fuel k i hi]

theorem loop_returned_mono (tries : Int) (env : Nat → Int × PidMap) (k : Nat) (i : Int)
    (fuel : Nat) (h : (find_unused_thread.loop tries env fuel k i).2 = true) :
    ∀ more : Nat, find_unused_thread.loop tries env (fuel + more) k i
      = find_unused_thread.loop tries env fuel k i := by
  intro more
  induction more with
  | zero => rfl
  | succ more ih =>
    rw [← Nat.add_assoc, loop_returned_succ tries env (fuel + more) k i (by rw [ih]; exact h),
      ih]

theorem wrapInt_succ_of_lt (i : Int) (h0 : 0 ≤ i) (h : i < 2 ^ 63 - 1) :
    wrapInt (i + 1) = i + 1 := by
  unfold wrapInt
  omega

theorem wrapInt_le_max (x : Int) : wrapInt x ≤ 2 ^ 63 - 1 := by
  unfold wrapInt
  omega

/-- Below the largest 64-bit retry value the run never makes more than `tries + 1`
attempts, however long it is observed. -/
theorem loop_attempts_le (tries : Int) (env : Nat → Int × PidMap)
    (hmax : tries < 2 ^ 63 - 1) (fuel : Nat) :
    ∀ k : Nat, attempts (find_unused_thread.loop tries env fuel k k).1
      ≤ (tries + 1 - k).toNat := by
  induction fuel with
  | zero =>
    intro k
    simp [loop_zero, attempts]
  | succ fuel ih =>
    intro k
    by_cases hi : (k : Int) ≤ tries
    · by_cases hk : (env k).1 ∈ mapKeys (env k).2
      · rw [loop_taken tries env fuel k k hi hk,
          wrapInt_succ_of_lt k (Int.natCast_nonneg k) (by omega)]
        have h1 := ih (k + 1)
        push_cast at h1
        simp only [attempts_append, (counts_failedCalls (env k).1).1]
        omega
      · rw [loop_free tries env fuel k k hi hk, (counts_claimedCalls (env k).1).1]
        omega
    · rw [loop_exit tries env fuel k k hi, counts_giveUpCalls.1]
      omega

/-- Below the largest 64-bit retry value the run returns within `tries + 2` evaluations of
the loop condition. -/
theorem loop_returns (tries : Int) (env : Nat → Int × PidMap)
    (hmax : tries < 2 ^ 63 - 1) (fuel : Nat) :
    ∀ k : Nat, (tries + 1 - k).toNat < fuel →
      (find_unused_thread.loop tries env fuel k k).2 = true := by
  induction fuel with
  | zero =>
    intro k h
    exact absurd h (Nat.not_lt_zero _)
  | succ fuel ih =>
    intro k h
    by_cases hi : (k : Int) ≤ tries
    · by_cases hk : (env k).1 ∈ mapKeys (env k).2
      · rw [loop_taken tries env fuel k k hi hk,
          wrapInt_succ_of_lt k (Int.natCast_nonneg k) (by omega)]
        have h1 := ih (k + 1) (by push_cast; omega)
        push_cast at h1
        exact h1
      · rw [loop_free tries env fuel k k hi hk]
    · rw [loop_exit tries env fuel k k hi]

/-- Below the largest 64-bit retry value, when every admitted attempt finds its thread id
registered, the run uses all `tries + 1` attempts and gives up without running the
worker. -/
theorem loop_all_taken (tries : Int) (env : Nat → Int × PidMap)
    (hmax : tries < 2 ^ 63 - 1) (fuel : Nat) :
    ∀ k : Nat, (∀ j : Nat, k ≤ j → (j : Int) ≤ tries → (env j).1 ∈ mapKeys (env j).2) →
      (tries + 1 - k).toNat < fuel →
      attempts (find_unused_thread.loop tries env fuel k k).1 = (tries + 1 - k).toNat ∧
      workerCalls (find_unused_thread.loop tries env fuel k k).1 = 0 ∧
      giveUps (find_unused_thread.loop tries env fuel k k).1 = 1 := by
  induction fuel with
  | zero =>
    intro k _ h
    exact absurd h (Nat.not_lt_zero _)
  | succ fuel ih =>
    intro k hall h
    by_cases hi : (k : Int) ≤ tries
    · have hk := hall k (Nat.le_refl k) hi
      rw [loop_taken tries env fuel k k hi hk,
        wrapInt_succ_of_lt k (Int.natCast_nonneg k) (by omega)]
      have h1 := ih (k + 1) (fun j hj hjt => hall j (by omega) hjt) (by push_cast; omega)
      push_cast at h1
      obtain ⟨h2, h3, h4⟩ := h1
      have hf := counts_failedCalls (env k).1
      simp only [attempts_append, workerCalls_append, giveUps_append, hf.1, hf.2.1,
        hf.2.2.2, h2, h3, h4]
      exact ⟨by omega, trivial, trivial⟩
    · rw [loop_exit tries env fuel k k hi]
      have hg := counts_giveUpCalls
      refine ⟨?_, hg.2.1, hg.2.2.2⟩
      rw [hg.1]
      omega

/-- When the attempt `d` iterations ahead finds its thread id free and the loop condition
admits every iteration up to it, the run returns having run the worker exactly once,
without giving up. -/
theorem loop_some_free (tries : Int) (env : Nat → Int × PidMap) (d : Nat) :
    ∀ (fuel k : Nat) (i : Int),
      (tries < 2 ^ 63 - 1 ∧ i = k ∧ ((k + d : Nat) : Int) ≤ tries) ∨
        (tries = 2 ^ 63 - 1 ∧ i ≤ 2 ^ 63 - 1) →
      (env (k + d)).1 ∉ mapKeys (env (k + d)).2 → d < fuel →
      (find_unused_thread.loop tries env fuel k i).2 = true ∧
      workerCalls (find_unused_thread.loop tries env fuel k i).1 = 1 ∧
      giveUps (find_unused_thread.loop tries env fuel k i).1 = 0 := by
  induction d with
  | zero =>
    intro fuel k i hadm hfree hfuel
    obtain ⟨fuel, rfl⟩ := Nat.exists_eq_succ_of_ne_zero (Nat.ne_of_gt hfuel)
    have hi : i ≤ tries := by
      rcases hadm with ⟨_, h1, h2⟩ | ⟨h1, h2⟩
      · rw [h1]
        simpa using h2
      · omega
    rw [loop_free tries env fuel k i hi (by simpa using hfree)]
    exact ⟨rfl, (counts_claimedCalls (env k).1).2.1, (counts_claimedCalls (env k).1).2.2.2⟩
  | succ d ih =>
    intro fuel k i hadm hfree hfuel
    obtain ⟨fuel, rfl⟩ := Nat.exists_eq_succ_of_ne_zero (Nat.ne_of_gt (Nat.lt_of_le_of_lt (Nat.zero_le _) hfuel))
    have hi : i ≤ tries := by
      rcases hadm with ⟨_, h1, h2⟩ | ⟨h1, h2⟩
      · rw [h1]
        push_cast at h2
        omega
      · omega
    by_cases hk : (env k).1 ∈ mapKeys (env k).2
    · rw [loop_taken tries env fuel k i hi hk]
      have hadm1 : (tries < 2 ^ 63 - 1 ∧ wrapInt (i + 1) = ((k + 1 : Nat) : Int)
            ∧ ((k + 1 + d : Nat) : Int) ≤ tries) ∨
          (tries = 2 ^ 63 - 1 ∧ wrapInt (i + 1) ≤ 2 ^ 63 - 1) := by
        rcases hadm with ⟨h0, h1, h2⟩ | ⟨h1, _⟩
        · left
          refine ⟨h0, ?_, ?_⟩
          · rw [h1, wrapInt_succ_of_lt k (Int.natCast_nonneg k) (by push_cast at h2; omega)]
            push_cast
            rfl
          · push_cast at h2 ⊢
            omega
        · exact Or.inr ⟨h1, wrapInt_le_max _⟩
      have hfree1 : (env (k + 1 + d)).1 ∉ mapKeys (env (k + 1 + d)).2 := by
        rwa [show k + 1 + d = k + (d + 1) by omega]
      obtain ⟨h1, h2, h3⟩ := ih fuel (k + 1) (wrapInt (i + 1)) hadm1 hfree1 (by omega)
      have hf := counts_failedCalls (env k).1
      refine ⟨h1, ?_, ?_⟩
      · simp only [workerCalls_append, hf.2.1, h2]
      · simp only [giveUps_append, hf.2.2.2, h3]
    · rw [loop_free tries env fuel k i hi hk]
      exact ⟨rfl, (counts_claimedCalls (env k).1).2.1, (counts_claimedCalls (env k).1).2.2.2⟩

/-- With the largest 64-bit retry value the loop condition never fails: when every attempt
finds its thread id registered the run never returns. -/
theorem loop_never_returns (env : Nat → Int × PidMap)
    (hall : ∀ j : Nat, (env j).1 ∈ mapKeys (env j).2) (fuel : Nat) :
    ∀ (k : Nat) (i : Int), i ≤ 2 ^ 63 - 1 →
      (find_unused_thread.loop (2 ^ 63 - 1) env fuel k i).2 = false := by
  induction fuel with
  | zero =>
    intro k i _
    rfl
  | succ fuel ih =>
    intro k i hi
    rw [loop_taken (2 ^ 63 - 1) env fuel k i hi (hall k)]
    exact ih (k + 1) (wrapInt (i + 1)) (wrapInt_le_max _)

/-- The retry value `Distribute` passes is never the largest 64-bit integer, the one value
for which the counter of `for i := 0; i <= tries; i++` wraps around. -/
theorem wrapInt_find_retries_ne_max (num_threads : Int) :
    wrapInt (find_retries * num_threads) ≠ 2 ^ 63 - 1 := by
  unfold wrapInt find_retries
  omega

theorem wrapInt_find_retries_lt_max (num_threads : Int) :
    wrapInt (find_retries * num_threads) < 2 ^ 63 - 1 := by
  unfold wrapInt find_retries
  omega

theorem wrapInt_find_retries_le (num_threads : Int) (h : 0 ≤ num_threads) :
    wrapInt (find_retries * num_threads) ≤ 1000 * num_threads := by
  unfold wrapInt find_retries
  omega

/-! ## `Distribute` and `Fill` -/

theorem spawns_loop (n : Int) (wg reg : Nat) (k : Nat) :
    spawns (Distribute.loop n wg reg k)
      = List.replicate k (Effect.goFind (wrapInt (find_retries * n)) wg reg) := by
  induction k with
  | zero => rfl
  | succ k ih =>
    simp only [spawns] at ih
    simp [Distribute.loop, spawns, List.filter, ih, List.replicate_succ]

theorem registriesMade_loop (n : Int) (wg reg : Nat) (k : Nat) :
    registriesMade (Distribute.loop n wg reg k) = [] := by
  induction k with
  | zero => rfl
  | succ k ih => simp [Distribute.loop, registriesMade, ih]

theorem barrierAfter_loop (n : Int) (wg reg : Nat) (k : Nat) :
    ∀ c : Int, barrierAfter wg (some c) (Distribute.loop n wg reg k) = some (c + k) := by
  induction k with
  | zero =>
    intro c
    simp [Distribute.loop, barrierAfter]
  | succ k ih =>
    intro c
    simp only [Distribute.loop, barrierAfter, if_true, Option.map]
    rw [ih (c + 1)]
    congr 1
    push_cast
    omega

/-- Claim C9.  For every integer `n`, `Distribute(n, wg, worker)` starts exactly `max(n, 0)`
goroutines, every one on the same barrier `wg` and on the one registry it created, whose
map is empty at creation, and raises the barrier count by exactly `max(n, 0)`; `Fill` does the same with
`n` the value of `GOMAXPROCS(0)` on a barrier it allocates with count zero, and returns that
barrier. -/
theorem Distribute_fan_out (n c : Int) (wg reg : Nat) :
    spawns (Distribute n wg reg)
      = List.replicate (max n 0).toNat
          (Effect.goFind (wrapInt (find_retries * n)) wg reg) ∧
    ((spawns (Distribute n wg reg)).length : Int) = max n 0 ∧
    registriesMade (Distribute n wg reg) = [(reg, n)] ∧
    (∀ s : System, (applyEffect s (Effect.makeRegistry reg n)).reg.pids = []) ∧
    barrierAfter wg (some c) (Distribute n wg reg) = some (c + max n 0) ∧
    (Fill n wg reg).1 = wg ∧
    spawns (Fill n wg reg).2 = spawns (Distribute n wg reg) ∧
    registriesMade (Fill n wg reg).2 = [(reg, n)] ∧
    barrierAfter (Fill n wg reg).1 none (Fill n wg reg).2 = some (max n 0) := by
  have hmax : (max n 0).toNat = n.toNat := by
    rcases le_total n 0 with h | h
    · simp [max_eq_right h, Int.toNat_eq_zero.2 h]
    · simp [max_eq_left h]
  have hcast : ((n.toNat : Nat) : Int) = max n 0 := Int.toNat_eq_max n
  have hs : spawns (Distribute n wg reg)
      = List.replicate n.toNat (Effect.goFind (wrapInt (find_retries * n)) wg reg) := by
    have := spawns_loop n wg reg n.toNat
    simp only [spawns] at this
    simp [Distribute, spawns, List.filter, this]
  have hb : ∀ c : Int, barrierAfter wg (some c) (Distribute n wg reg) = some (c + max n 0) := by
    intro c
    simp only [Distribute, barrierAfter]
    rw [barrierAfter_loop, hcast]
  refine ⟨by rw [hs, hmax], by rw [hs, List.length_replicate, hcast], ?_, fun _ => rfl, hb c,
    rfl, ?_, ?_, ?_⟩
  · simp [Distribute, registriesMade, registriesMade_loop]
  · simp [Fill, spawns, List.filter]
  · simp [Fill, Distribute, registriesMade, registriesMade_loop]
  · have := hb 0
    simpa [Fill, barrierAfter] using this

/-! ## The retry loop: budget, completion signal and worker invocations -/

theorem spawns_Distribute (n : Int) (wg reg : Nat) :
    spawns (Distribute n wg reg)
      = List.replicate n.toNat (Effect.goFind (wrapInt (find_retries * n)) wg reg) := by
  have h := spawns_loop n wg reg n.toNat
  simp only [spawns] at h
  simp [Distribute, spawns, List.filter, h]

/-- Claim C2 as stated fails.  With retry value `0` and an empty registry the run makes one
attempt, not zero.  With retry value `2000`, the value `Distribute(2, ...)` passes, a run
whose every attempt reads thread id `5` while `5` is registered makes `2001` attempts before
it gives up.  With the largest 64-bit retry value such a run makes as many attempts as it is
given evaluations of the loop condition. -/
theorem attempts_exceed_tries :
    find_unused_thread 0 (fun _ => (7, [])) 1 = (claimedCalls 7, true) ∧
    attempts (find_unused_thread 0 (fun _ => (7, [])) 1).1 = 1 ∧
    spawns (Distribute 2 0 0) = [Effect.goFind 2000 0 0, Effect.goFind 2000 0 0] ∧
    (find_unused_thread 2000 (fun _ => (5, [(5, true)])) 2002).2 = true ∧
    attempts (find_unused_thread 2000 (fun _ => (5, [(5, true)])) 2002).1 = 2001 ∧
    (∀ fuel : Nat,
      attempts (find_unused_thread (2 ^ 63 - 1) (fun _ => (5, [(5, true)])) fuel).1
        = fuel) := by
  have htaken : ∀ j : Nat,
      ((fun _ => ((5 : Int), [((5 : Int), true)])) j : Int × PidMap).1
        ∈ mapKeys ((fun _ => ((5 : Int), [((5 : Int), true)])) j : Int × PidMap).2 := by
    intro j
    simp [mapKeys]
  refine ⟨by decide, by decide, by decide, ?_, ?_, ?_⟩
  · exact loop_returns 2000 _ (by norm_num) 2002 0 (by decide)
  · have h := loop_all_taken 2000 (fun _ => (5, [(5, true)])) (by norm_num) 2002 0
      (fun j _ _ => htaken j) (by decide)
    exact h.1
  · intro fuel
    exact (loop_running _ _ fuel 0 0
      (loop_never_returns _ htaken fuel 0 0 (by norm_num))).1

/-- Claim C2, amended.  For every retry value `tries` with `0 <= tries < 2^63 - 1` and
whatever the attempts meet, a run makes at most `tries + 1` attempts, however long it is
observed; so every goroutine `Distribute(n, ...)` starts makes at most `1000 * n + 1`
attempts. -/
theorem attempts_le_tries_succ (tries : Int) (env : Nat → Int × PidMap) (fuel : Nat) :
    (0 ≤ tries → tries < 2 ^ 63 - 1 →
      (attempts (find_unused_thread tries env fuel).1 : Int) ≤ tries + 1) ∧
    (∀ (n : Int) (wg reg : Nat) (t : Int) (w r : Nat),
      Effect.goFind t w r ∈ spawns (Distribute n wg reg) →
      (attempts (find_unused_thread t env fuel).1 : Int) ≤ 1000 * n + 1) := by
  constructor
  · intro h0 hmax
    have h := loop_attempts_le tries env hmax fuel 0
    simp only [find_unused_thread]
    have hc : ((0 : Nat) : Int) = 0 := rfl
    rw [hc] at h
    omega
  · intro n wg reg t w r hmem
    rw [spawns_Distribute, List.mem_replicate] at hmem
    obtain ⟨hn, he⟩ := hmem
    have ht : t = wrapInt (find_retries * n) := by
      injection he
    have hpos : 0 ≤ n := by
      by_contra hneg
      exact hn (Int.toNat_eq_zero.2 (by omega))
    have hmax := wrapInt_find_retries_lt_max n
    have hle := wrapInt_find_retries_le n hpos
    have h := loop_attempts_le t env (by rw [ht]; exact hmax) fuel 0
    simp only [find_unused_thread]
    have hc : ((0 : Nat) : Int) = 0 := rfl
    rw [hc] at h
    rw [← ht] at hle
    omega

/-- Claim C2, amended, at concrete inputs: retry value `2` with thread id `7` always
registered, and the retry value `2000` of the goroutines of `Distribute(2, ...)`. -/
theorem attempts_le_tries_succ_witness :
    (attempts (find_unused_thread 2 (fun _ => (7, [(7, true)])) 5).1 : Int) ≤ 2 + 1 ∧
    (attempts (find_unused_thread 2000 (fun _ => (7, [(7, true)])) 5).1 : Int)
      ≤ 1000 * 2 + 1 :=
  ⟨(attempts_le_tries_succ 2 (fun _ => (7, [(7, true)])) 5).1 (by norm_num) (by norm_num),
    (attempts_le_tries_succ 2 (fun _ => (7, [(7, true)])) 5).2 2 0 0 2000 0 0 (by decide)⟩

/-- Claim C3 as stated fails.  With the largest 64-bit retry value and every attempt
reading thread id `7` while `7` is registered, the loop condition `i <= tries` never fails
(the counter wraps around): however long the run is observed it has not returned and has
not called `wg.Done()`. -/
theorem done_never_called_at_largest_budget :
    (7 : Int) ∈ mapKeys [(7, true)] ∧
    (∀ fuel : Nat,
      (find_unused_thread (2 ^ 63 - 1) (fun _ => (7, [(7, true)])) fuel).2 = false ∧
      doneCalls (find_unused_thread (2 ^ 63 - 1) (fun _ => (7, [(7, true)])) fuel).1
        = 0) := by
  have htaken : ∀ j : Nat,
      ((fun _ => ((7 : Int), [((7 : Int), true)])) j : Int × PidMap).1
        ∈ mapKeys ((fun _ => ((7 : Int), [((7 : Int), true)])) j : Int × PidMap).2 := by
    intro j
    simp [mapKeys]
  refine ⟨by decide, ?_⟩
  intro fuel
  have h := loop_never_returns _ htaken fuel 0 0 (by norm_num)
  exact ⟨h, (loop_running _ _ fuel 0 0 h).2.2.1⟩

/-- Claim C3, amended.  Whatever the retry value and whatever the attempts meet, a run of
`find_unused_thread` that has returned has called `wg.Done()` exactly once, as its last
call, on exactly one of the two exits (worker ran, or gave up), and a run that has not
returned has not called it.  For every retry value below `2^63 - 1` the run returns, within
`tries + 2` evaluations of the loop condition, and is the same run however much longer it
is observed; for the retry value `2^63 - 1` it returns whenever some attempt finds its
thread id free. -/
theorem find_unused_thread_done_once (tries : Int) (env : Nat → Int × PidMap) :
    (∀ fuel : Nat, (find_unused_thread tries env fuel).2 = true →
      doneCalls (find_unused_thread tries env fuel).1 = 1 ∧
      (find_unused_thread tries env fuel).1.getLast? = some Call.wgDone ∧
      workerCalls (find_unused_thread tries env fuel).1
        + giveUps (find_unused_thread tries env fuel).1 = 1) ∧
    (∀ fuel : Nat, (find_unused_thread tries env fuel).2 = false →
      doneCalls (find_unused_thread tries env fuel).1 = 0) ∧
    (tries < 2 ^ 63 - 1 → ∀ fuel : Nat, (tries + 1).toNat < fuel →
      (find_unused_thread tries env fuel).2 = true ∧
      find_unused_thread tries env fuel
        = find_unused_thread tries env ((tries + 1).toNat + 1)) ∧
    (tries = 2 ^ 63 - 1 → ∀ k : Nat, (env k).1 ∉ mapKeys (env k).2 →
      ∀ fuel : Nat, k < fuel → (find_unused_thread tries env fuel).2 = true) := by
  refine ⟨fun fuel h => loop_returned tries env fuel 0 0 h,
    fun fuel h => (loop_running tries env fuel 0 0 h).2.2.1, ?_, ?_⟩
  · intro hmax fuel hfuel
    have hc : (tries + 1 - ((0 : Nat) : Int)).toNat = (tries + 1).toNat := by simp
    have hbase : (find_unused_thread.loop tries env ((tries + 1).toNat + 1) 0 0).2 = true :=
      loop_returns tries env hmax ((tries + 1).toNat + 1) 0 (by rw [hc]; omega)
    have hmono := loop_returned_mono tries env 0 0 ((tries + 1).toNat + 1) hbase
      (fuel - ((tries + 1).toNat + 1))
    rw [show (tries + 1).toNat + 1 + (fuel - ((tries + 1).toNat + 1)) = fuel by omega] at hmono
    simp only [find_unused_thread]
    exact ⟨by rw [hmono]; exact hbase, hmono⟩
  · intro hmax k hfree fuel hfuel
    have h := loop_some_free tries env k fuel 0 0 (Or.inr ⟨hmax, by norm_num⟩)
      (by simpa using hfree) hfuel
    exact h.1

/-- Claim C3, amended, at a concrete input: retry value `2`, thread id `7` registered at
every attempt; the run gives up and calls `wg.Done()` once. -/
theorem find_unused_thread_done_once_witness :
    (find_unused_thread 2 (fun _ => (7, [(7, true)])) 4).2 = true ∧
    doneCalls (find_unused_thread 2 (fun _ => (7, [(7, true)])) 4).1 = 1 ∧
    (find_unused_thread 2 (fun _ => (7, [(7, true)])) 4).1.getLast? = some Call.wgDone ∧
    workerCalls (find_unused_thread 2 (fun _ => (7, [(7, true)])) 4).1
      + giveUps (find_unused_thread 2 (fun _ => (7, [(7, true)])) 4).1 = 1 :=
  ⟨((find_unused_thread_done_once 2 (fun _ => (7, [(7, true)]))).2.2.1
      (by norm_num) 4 (by decide)).1,
    (find_unused_thread_done_once 2 (fun _ => (7, [(7, true)]))).1 4
      (((find_unused_thread_done_once 2 (fun _ => (7, [(7, true)]))).2.2.1
        (by norm_num) 4 (by decide)).1)⟩

/-- Claim C4 as stated fails.  With the largest 64-bit retry value and every attempt
reading thread id `6` while `6` is registered, every attempt finds its thread id
registered, yet the run never gives up: however long it is observed it has not returned,
has logged no give-up line and has not signalled the barrier. -/
theorem give_up_never_reached_at_largest_budget :
    (6 : Int) ∈ mapKeys [(5, true), (6, true)] ∧
    (∀ fuel : Nat,
      (find_unused_thread (2 ^ 63 - 1) (fun _ => (6, [(5, true), (6, true)])) fuel).2
        = false ∧
      workerCalls
        (find_unused_thread (2 ^ 63 - 1) (fun _ => (6, [(5, true), (6, true)])) fuel).1
        = 0 ∧
      giveUps
        (find_unused_thread (2 ^ 63 - 1) (fun _ => (6, [(5, true), (6, true)])) fuel).1
        = 0 ∧
      doneCalls
        (find_unused_thread (2 ^ 63 - 1) (fun _ => (6, [(5, true), (6, true)])) fuel).1
        = 0) := by
  have htaken : ∀ j : Nat,
      ((fun _ => ((6 : Int), [((5 : Int), true), ((6 : Int), true)])) j : Int × PidMap).1
        ∈ mapKeys
          ((fun _ => ((6 : Int), [((5 : Int), true), ((6 : Int), true)])) j
            : Int × PidMap).2 := by
    intro j
    simp [mapKeys]
  refine ⟨by decide, ?_⟩
  intro fuel
  have h := loop_never_returns _ htaken fuel 0 0 (by norm_num)
  have hr := loop_running _ _ fuel 0 0 h
  exact ⟨h, hr.2.1, hr.2.2.2, hr.2.2.1⟩

/-- Claim C4, amended.  For every retry value below `2^63 - 1`: if some attempt (numbered
`0` to `tries`) finds its thread id absent from the registry as it is at that attempt, the
run returns with the worker invoked exactly once and no give-up; if every attempt finds its
thread id registered, the run returns with the worker never invoked, the give-up line
logged and `wg.Done()` called once.  For the retry value `2^63 - 1`: if some attempt finds
its thread id absent, the run returns with the worker invoked exactly once. -/
theorem find_unused_thread_worker_calls (tries : Int) (env : Nat → Int × PidMap) :
    (tries < 2 ^ 63 - 1 →
      ((∃ k : Nat, (k : Int) ≤ tries ∧ (env k).1 ∉ mapKeys (env k).2) →
        ∀ fuel : Nat, (tries + 1).toNat < fuel →
          (find_unused_thread tries env fuel).2 = true ∧
          workerCalls (find_unused_thread tries env fuel).1 = 1 ∧
          giveUps (find_unused_thread tries env fuel).1 = 0 ∧
          doneCalls (find_unused_thread tries env fuel).1 = 1) ∧
      ((∀ k : Nat, (k : Int) ≤ tries → (env k).1 ∈ mapKeys (env k).2) →
        ∀ fuel : Nat, (tries + 1).toNat < fuel →
          (find_unused_thread tries env fuel).2 = true ∧
          workerCalls (find_unused_thread tries env fuel).1 = 0 ∧
          giveUps (find_unused_thread tries env fuel).1 = 1 ∧
          doneCalls (find_unused_thread tries env fuel).1 = 1)) ∧
    (tries = 2 ^ 63 - 1 →
      ∀ k : Nat, (env k).1 ∉ mapKeys (env k).2 → ∀ fuel : Nat, k < fuel →
        (find_unused_thread tries env fuel).2 = true ∧
        workerCalls (find_unused_thread tries env fuel).1 = 1 ∧
        giveUps (find_unused_thread tries env fuel).1 = 0 ∧
        doneCalls (find_unused_thread tries env fuel).1 = 1) := by
  refine ⟨fun hmax => ⟨?_, ?_⟩, ?_⟩
  · rintro ⟨k, hk, hfree⟩ fuel hfuel
    have h := loop_some_free tries env k fuel 0 0
      (Or.inl ⟨hmax, rfl, by simpa using hk⟩) (by simpa using hfree) (by omega)
    exact ⟨h.1, h.2.1, h.2.2, (loop_returned tries env fuel 0 0 h.1).1⟩
  · intro hall fuel hfuel
    have hc : (tries + 1 - ((0 : Nat) : Int)).toNat = (tries + 1).toNat := by simp
    have hret := loop_returns tries env hmax fuel 0 (by rw [hc]; exact hfuel)
    have h := loop_all_taken tries env hmax fuel 0 (fun j _ hj => hall j hj)
      (by rw [hc]; exact hfuel)
    exact ⟨hret, h.2.1, h.2.2, (loop_returned tries env fuel 0 0 hret).1⟩
  · intro hmax k hfree fuel hfuel
    have h := loop_some_free tries env k fuel 0 0 (Or.inr ⟨hmax, by norm_num⟩)
      (by simpa using hfree) hfuel
    exact ⟨h.1, h.2.1, h.2.2, (loop_returned tries env fuel 0 0 h.1).1⟩

/-- Claim C4, amended, at concrete inputs: with retry value `2`, the third attempt finding
thread id `8` absent, the worker runs once; with every attempt finding thread id `7`
registered it never runs and the run gives up. -/
theorem find_unused_thread_worker_calls_witness :
    ((find_unused_thread 2
        (fun k => if k = 2 then (8, [(7, true)]) else (7, [(7, true)])) 4).2 = true ∧
      workerCalls (find_unused_thread 2
        (fun k => if k = 2 then (8, [(7, true)]) else (7, [(7, true)])) 4).1 = 1 ∧
      giveUps (find_unused_thread 2
        (fun k => if k = 2 then (8, [(7, true)]) else (7, [(7, true)])) 4).1 = 0 ∧
      doneCalls (find_unused_thread 2
        (fun k => if k = 2 then (8, [(7, true)]) else (7, [(7, true)])) 4).1 = 1) ∧
    ((find_unused_thread 2 (fun _ => (7, [(7, true)])) 4).2 = true ∧
      workerCalls (find_unused_thread 2 (fun _ => (7, [(7, true)])) 4).1 = 0 ∧
      giveUps (find_unused_thread 2 (fun _ => (7, [(7, true)])) 4).1 = 1 ∧
      doneCalls (find_unused_thread 2 (fun _ => (7, [(7, true)])) 4).1 = 1) :=
  ⟨((find_unused_thread_worker_calls 2
        (fun k => if k = 2 then (8, [(7, true)]) else (7, [(7, true)]))).1
      (by norm_num)).1 ⟨2, by decide, by decide⟩ 4 (by decide),
    ((find_unused_thread_worker_calls 2 (fun _ => (7, [(7, true)]))).1
      (by norm_num)).2 (fun _ _ => by decide) 4 (by decide)⟩

/-! ## The interleaving semantics: steps -/

theorem claimerStep_facts {tid tries : Int} {pc pc1 : PC} {reg reg1 : pidRegistry}
    {wg wg1 : Int} (h : claimerStep tid tries pc reg wg = some (pc1, reg1, wg1)) :
    StepFacts pc pc1 reg reg1 wg wg1 := by
  cases pc <;> simp only [claimerStep] at h <;> (try split at h) <;>
    simp only [Option.some.injEq, Prod.mk.injEq, reduceCtorEq] at h <;>
    (try obtain ⟨rfl, rfl, rfl⟩ := h) <;>
    constructor <;> simp_all [holdsLock, claimOf]

theorem getElem?_set_cases {l : List Claimer} {k j : Nat} {c0 c1 c : Claimer}
    (hk : l[k]? = some c0) (h : (l.set k c1)[j]? = some c) :
    (j = k ∧ c = c1) ∨ (j ≠ k ∧ l[j]? = some c) := by
  by_cases hjk : j = k
  · subst hjk
    have hlt : j < l.length := (List.getElem?_eq_some_iff.1 hk).1
    rw [List.getElem?_set_self hlt] at h
    exact Or.inl ⟨rfl, (Option.some.inj h).symm⟩
  · rw [List.getElem?_set_ne (fun e => hjk e.symm)] at h
    exact Or.inr ⟨hjk, h⟩

theorem getElem?_set_at {l : List Claimer} {k : Nat} {c0 : Claimer} (c1 : Claimer)
    (hk : l[k]? = some c0) : (l.set k c1)[k]? = some c1 :=
  List.getElem?_set_self (List.getElem?_eq_some_iff.1 hk).1

theorem getElem?_set_other {l : List Claimer} {k j : Nat} (c1 : Claimer) (hjk : j ≠ k) :
    (l.set k c1)[j]? = l[j]? :=
  List.getElem?_set_ne (fun e => hjk e.symm)

theorem getElem?_concat_cases {l : List Claimer} {x c : Claimer} {j : Nat}
    (h : (l ++ [x])[j]? = some c) : l[j]? = some c ∨ (j = l.length ∧ c = x) := by
  by_cases hj : j < l.length
  · rw [List.getElem?_append_left hj] at h
    exact Or.inl h
  · have hle : l.length ≤ j := Nat.le_of_not_lt hj
    rw [List.getElem?_append_right hle] at h
    by_cases h0 : j - l.length = 0
    · rw [h0] at h
      simp only [List.getElem?_cons_zero, Option.some.injEq] at h
      exact Or.inr ⟨by omega, h.symm⟩
    · obtain ⟨m, hm⟩ := Nat.exists_eq_succ_of_ne_zero h0
      rw [hm] at h
      simp at h

theorem getElem?_concat_old {l : List Claimer} {c : Claimer} {j : Nat} (x : Claimer)
    (h : l[j]? = some c) : (l ++ [x])[j]? = some c := by
  rw [List.getElem?_append_left (List.getElem?_eq_some_iff.1 h).1]
  exact h

theorem countP_set_add (p : Claimer → Bool) :
    ∀ (l : List Claimer) (k : Nat) (c0 c1 : Claimer), l[k]? = some c0 →
      (l.set k c1).countP p + (if p c0 then 1 else 0)
        = l.countP p + (if p c1 then 1 else 0) := by
  intro l
  induction l with
  | nil =>
    intro k c0 c1 h
    simp at h
  | cons a rest ih =>
    intro k c0 c1 h
    cases k with
    | zero =>
      simp only [List.getElem?_cons_zero, Option.some.injEq] at h
      subst h
      simp only [List.set_cons_zero, List.countP_cons]
      omega
    | succ k =>
      simp only [List.getElem?_cons_succ] at h
      have := ih k c0 c1 h
      simp only [List.set_cons_succ, List.countP_cons]
      omega

/-! ## The registry invariant -/

theorem RegInv_nil : RegInv { pids := [], lock := false } [] := by
  constructor <;> simp [mapKeys]

theorem RegInv_spawn {reg : pidRegistry} {l : List Claimer} (tries : Int)
    (inv : RegInv reg l) : RegInv reg (l ++ [{ tries := tries, pc := PC.forTest 0 }]) := by
  constructor
  · intro i j ci cj hi hj hli hlj
    rcases getElem?_concat_cases hi with hi0 | ⟨_, hci⟩
    · rcases getElem?_concat_cases hj with hj0 | ⟨_, hcj⟩
      · exact inv.mutex i j ci cj hi0 hj0 hli hlj
      · subst hcj
        simp [holdsLock] at hlj
    · subst hci
      simp [holdsLock] at hli
  · intro i ci hi hli
    rcases getElem?_concat_cases hi with hi0 | ⟨_, hci⟩
    · exact inv.locked i ci hi0 hli
    · subst hci
      simp [holdsLock] at hli
  · intro q
    rw [inv.keys q]
    constructor
    · rintro ⟨i, ci, hi, hq⟩
      exact ⟨i, ci, getElem?_concat_old _ hi, hq⟩
    · rintro ⟨i, ci, hi, hq⟩
      rcases getElem?_concat_cases hi with hi0 | ⟨_, hci⟩
      · exact ⟨i, ci, hi0, hq⟩
      · subst hci
        simp [claimOf] at hq
  · intro i j ci cj q hi hj hqi hqj
    rcases getElem?_concat_cases hi with hi0 | ⟨_, hci⟩
    · rcases getElem?_concat_cases hj with hj0 | ⟨_, hcj⟩
      · exact inv.excl i j ci cj q hi0 hj0 hqi hqj
      · subst hcj
        simp [claimOf] at hqj
    · subst hci
      simp [claimOf] at hqi
  · intro i ci q hi hpc
    rcases getElem?_concat_cases hi with hi0 | ⟨_, hci⟩
    · exact inv.fresh i ci q hi0 hpc
    · subst hci
      simp at hpc

/-- A goroutine that is inside a critical section after its step excludes every other
goroutine from being inside one. -/
theorem lock_step_unique {reg reg1 : pidRegistry} {l : List Claimer} {k j : Nat}
    {c0 cj : Claimer} {pc1 : PC} {wg wg1 : Int} (inv : RegInv reg l) (hk : l[k]? = some c0)
    (f : StepFacts c0.pc pc1 reg reg1 wg wg1) (h1 : holdsLock pc1 = true)
    (hj0 : l[j]? = some cj) (hlj : holdsLock cj.pc = true) : j = k := by
  cases h0 : holdsLock c0.pc with
  | false =>
    have hf := (f.acquire h1 h0).1
    have ht := inv.locked j cj hj0 hlj
    rw [hf] at ht
    exact absurd ht (by simp)
  | true => exact inv.mutex j k cj c0 hj0 hk hlj h0

/-- While another goroutine is inside a critical section, the stepping goroutine is outside
one before and after its step. -/
theorem other_holds_lock {reg reg1 : pidRegistry} {l : List Claimer} {k i : Nat}
    {c0 ci : Claimer} {pc1 : PC} {wg wg1 : Int} (inv : RegInv reg l) (hk : l[k]? = some c0)
    (f : StepFacts c0.pc pc1 reg reg1 wg wg1) (hik : i ≠ k)
    (hi0 : l[i]? = some ci) (hli : holdsLock ci.pc = true) :
    holdsLock c0.pc = false ∧ holdsLock pc1 = false := by
  have h0 : holdsLock c0.pc = false := by
    cases h0 : holdsLock c0.pc with
    | false => rfl
    | true => exact absurd (inv.mutex i k ci c0 hi0 hk hli h0) hik
  refine ⟨h0, ?_⟩
  cases h1 : holdsLock pc1 with
  | false => rfl
  | true => exact absurd (lock_step_unique inv hk f h1 hi0 hli) hik

theorem RegInv_step {reg reg1 : pidRegistry} {l : List Claimer} {k : Nat} {c0 : Claimer}
    {pc1 : PC} {wg wg1 : Int} (inv : RegInv reg l) (hk : l[k]? = some c0)
    (f : StepFacts c0.pc pc1 reg reg1 wg wg1) :
    RegInv reg1 (l.set k { c0 with pc := pc1 }) := by
  constructor
  · intro i j ci cj hi hj hli hlj
    rcases getElem?_set_cases hk hi with ⟨hik, hci⟩ | ⟨hik, hi0⟩
    · rcases getElem?_set_cases hk hj with ⟨hjk, hcj⟩ | ⟨hjk, hj0⟩
      · rw [hik, hjk]
      · rw [hci] at hli
        exact absurd (lock_step_unique inv hk f hli hj0 hlj) hjk
    · rcases getElem?_set_cases hk hj with ⟨hjk, hcj⟩ | ⟨hjk, hj0⟩
      · rw [hcj] at hlj
        exact absurd (lock_step_unique inv hk f hlj hi0 hli) hik
      · exact inv.mutex i j ci cj hi0 hj0 hli hlj
  · intro i ci hi hli
    rcases getElem?_set_cases hk hi with ⟨hik, hci⟩ | ⟨hik, hi0⟩
    · rw [hci] at hli
      cases h0 : holdsLock c0.pc with
      | false => exact (f.acquire hli h0).2
      | true =>
        rw [f.keep hli h0]
        exact inv.locked k c0 hk h0
    · obtain ⟨h0, h1⟩ := other_holds_lock inv hk f hik hi0 hli
      rw [f.outside h0 h1]
      exact inv.locked i ci hi0 hli
  · intro q
    rcases f.pids with ⟨hsame, hp⟩ | ⟨pid, hpc0, hpc1, hp⟩ | ⟨pid, hpc0, hpc1, hp⟩
    · rw [hp, inv.keys q]
      constructor
      · rintro ⟨i, ci, hi, hq⟩
        by_cases hik : i = k
        · subst hik
          have hc : ci = c0 := by
            rw [hk] at hi
            exact (Option.some.inj hi).symm
          subst hc
          exact ⟨i, _, getElem?_set_at _ hk, by rw [← hq]; exact hsame⟩
        · exact ⟨i, ci, by rw [getElem?_set_other _ hik]; exact hi, hq⟩
      · rintro ⟨i, ci, hi, hq⟩
        rcases getElem?_set_cases hk hi with ⟨hik, hci⟩ | ⟨hik, hi0⟩
        · rw [hci] at hq
          exact ⟨k, c0, hk, by rw [← hq]; exact hsame.symm⟩
        · exact ⟨i, ci, hi0, hq⟩
    · rw [hp, mem_mapKeys_mapSet, inv.keys q]
      constructor
      · rintro (hq | ⟨i, ci, hi, hq⟩)
        · exact ⟨k, _, getElem?_set_at _ hk, by simp [hpc1, claimOf, hq]⟩
        · have hik : i ≠ k := by
            intro e
            subst e
            rw [hk] at hi
            have hc := Option.some.inj hi
            subst hc
            rw [hpc0] at hq
            simp [claimOf] at hq
          exact ⟨i, ci, by rw [getElem?_set_other _ hik]; exact hi, hq⟩
      · rintro ⟨i, ci, hi, hq⟩
        rcases getElem?_set_cases hk hi with ⟨hik, hci⟩ | ⟨hik, hi0⟩
        · left
          rw [hci] at hq
          simp only [hpc1, claimOf, Option.some.injEq] at hq
          exact hq.symm
        · right
          exact ⟨i, ci, hi0, hq⟩
    · rw [hp, mem_mapKeys_mapDelete, inv.keys q]
      constructor
      · rintro ⟨hne, i, ci, hi, hq⟩
        have hik : i ≠ k := by
          intro e
          subst e
          rw [hk] at hi
          have hc := Option.some.inj hi
          subst hc
          rw [hpc0] at hq
          simp only [claimOf, Option.some.injEq] at hq
          exact hne hq.symm
        exact ⟨i, ci, by rw [getElem?_set_other _ hik]; exact hi, hq⟩
      · rintro ⟨i, ci, hi, hq⟩
        rcases getElem?_set_cases hk hi with ⟨hik, hci⟩ | ⟨hik, hi0⟩
        · rw [hci] at hq
          simp [hpc1, claimOf] at hq
        · refine ⟨?_, i, ci, hi0, hq⟩
          intro e
          subst e
          exact hik (inv.excl i k ci c0 q hi0 hk hq (by rw [hpc0]; rfl))
  · intro i j ci cj q hi hj hqi hqj
    have key : ∀ (j : Nat) (cj : Claimer), j ≠ k → l[j]? = some cj →
        claimOf cj.pc = some q → claimOf pc1 = some q → False := by
      intro j cj hjk hj0 hqj hq1
      rcases f.pids with ⟨hsame, _⟩ | ⟨pid, hpc0, hpc1, _⟩ | ⟨pid, hpc0, hpc1, _⟩
      · exact hjk (inv.excl j k cj c0 q hj0 hk hqj (by rw [← hsame]; exact hq1))
      · rw [hpc1] at hq1
        simp only [claimOf, Option.some.injEq] at hq1
        subst hq1
        exact inv.fresh k c0 pid hk hpc0 ((inv.keys pid).2 ⟨j, cj, hj0, hqj⟩)
      · rw [hpc1] at hq1
        simp [claimOf] at hq1
    rcases getElem?_set_cases hk hi with ⟨hik, hci⟩ | ⟨hik, hi0⟩
    · rcases getElem?_set_cases hk hj with ⟨hjk, hcj⟩ | ⟨hjk, hj0⟩
      · rw [hik, hjk]
      · rw [hci] at hqi
        exact (key j cj hjk hj0 hqj hqi).elim
    · rcases getElem?_set_cases hk hj with ⟨hjk, hcj⟩ | ⟨hjk, hj0⟩
      · rw [hcj] at hqj
        exact (key i ci hik hi0 hqi hqj).elim
      · exact inv.excl i j ci cj q hi0 hj0 hqi hqj
  · intro i ci q hi hpc
    rcases getElem?_set_cases hk hi with ⟨hik, hci⟩ | ⟨hik, hi0⟩
    · rw [hci] at hpc
      have hpc1 : pc1 = PC.register27 q := hpc
      have hnone := f.fresh q hpc1
      have hpids : reg1.pids = reg.pids := by
        rcases f.pids with ⟨_, hp⟩ | ⟨pid, _, hpc2, _⟩ | ⟨pid, _, hpc2, _⟩
        · exact hp
        · rw [hpc2] at hpc1
          cases hpc1
        · rw [hpc2] at hpc1
          cases hpc1
      rw [hpids]
      exact (mapLookup_eq_none_iff _ _).1 hnone
    · have hl : holdsLock ci.pc = true := by
        rw [hpc]
        rfl
      obtain ⟨h0, _⟩ := other_holds_lock inv hk f hik hi0 hl
      rw [f.pids_outside h0]
      exact inv.fresh i ci q hi0 hpc

/-! ## The system invariant -/

theorem step_claimer_some {s s1 : System} {k : Nat} {tid : Int}
    (h : step s (Action.claimer k tid) = some s1) :
    ∃ (c0 : Claimer) (pc1 : PC) (reg1 : pidRegistry) (wg1 : Int),
      s.claimers[k]? = some c0 ∧
      claimerStep tid c0.tries c0.pc s.reg s.wg = some (pc1, reg1, wg1) ∧
      s1 = { s with wg := wg1, reg := reg1,
                    claimers := s.claimers.set k { c0 with pc := pc1 } } := by
  simp only [step] at h
  cases hc : s.claimers[k]? with
  | none => simp [hc] at h
  | some c0 =>
    rw [hc] at h
    simp only at h
    cases hs : claimerStep tid c0.tries c0.pc s.reg s.wg with
    | none => simp [hs] at h
    | some r =>
      obtain ⟨pc1, reg1, wg1⟩ := r
      rw [hs] at h
      simp only [Option.some.injEq] at h
      exact ⟨c0, pc1, reg1, wg1, rfl, hs, h.symm⟩

theorem step_distribute_some {s s1 : System} (h : step s Action.distribute = some s1) :
    ∃ (e : Effect) (rest : List Effect),
      s.todo = e :: rest ∧ s1 = applyEffect { s with todo := rest } e := by
  simp only [step] at h
  cases ht : s.todo with
  | nil => simp [ht] at h
  | cons e rest =>
    rw [ht] at h
    simp only [Option.some.injEq] at h
    exact ⟨e, rest, rfl, h.symm⟩

theorem pendingAdd_loop (n : Int) (wg reg : Nat) (k : Nat) :
    pendingAdd (Distribute.loop n wg reg k) = 0 := by
  cases k <;> rfl

theorem pendingAdd_goFind (t : Int) (wg reg : Nat) (es : List Effect) :
    pendingAdd (Effect.goFind t wg reg :: es) = 1 := rfl

theorem pendingAdd_wgAdd (wg : Nat) (d : Int) (es : List Effect) :
    pendingAdd (Effect.wgAdd wg d :: es) = 0 := rfl

theorem pendingAdd_makeRegistry (reg : Nat) (h : Int) (es : List Effect) :
    pendingAdd (Effect.makeRegistry reg h :: es) = 0 := rfl

theorem spawns_goFind (t : Int) (wg reg : Nat) (es : List Effect) :
    spawns (Effect.goFind t wg reg :: es) = Effect.goFind t wg reg :: spawns es := rfl

theorem spawns_wgAdd (wg : Nat) (d : Int) (es : List Effect) :
    spawns (Effect.wgAdd wg d :: es) = spawns es := rfl

theorem spawns_makeRegistry (reg : Nat) (h : Int) (es : List Effect) :
    spawns (Effect.makeRegistry reg h :: es) = spawns es := rfl

theorem Inv_start (n c : Int) : Inv n c (start n c) := by
  constructor
  · exact RegInv_nil
  · exact Or.inl ⟨rfl, rfl⟩
  · have h := spawns_loop n 0 0 n.toNat
    simp only [spawns] at h
    simp [start, Distribute, spawns, List.filter, h]
  · simp [start, Distribute, liveCount, pendingAdd]
  · intro cl hcl
    simp [start] at hcl

theorem Inv_step_claimer {n c : Int} {s s1 : System} {k : Nat} {tid : Int}
    (inv : Inv n c s) (h : step s (Action.claimer k tid) = some s1) : Inv n c s1 := by
  obtain ⟨c0, pc1, reg1, wg1, hk, hs, rfl⟩ := step_claimer_some h
  have f := claimerStep_facts hs
  constructor
  · exact RegInv_step inv.reg hk f
  · rcases inv.shape with ⟨_, hnil⟩ | hsh
    · rw [hnil] at hk
      simp at hk
    · exact Or.inr hsh
  · simpa using inv.spawned
  · have hcount := countP_set_add notDone s.claimers k c0 { c0 with pc := pc1 } hk
    have h0 : notDone c0 = true := by simp [notDone, f.count.1]
    have hb := inv.barrier
    have hw := f.count.2
    simp only [liveCount] at hb ⊢
    simp only [h0, if_true] at hcount
    by_cases hex : pc1 = PC.exited
    · have h1 : notDone { c0 with pc := pc1 } = false := by simp [notDone, hex]
      rw [h1] at hcount
      rw [if_pos hex] at hw
      simp only [Bool.false_eq_true, if_false] at hcount
      omega
    · have h1 : notDone { c0 with pc := pc1 } = true := by simp [notDone, hex]
      rw [h1] at hcount
      rw [if_neg hex] at hw
      simp only [if_true] at hcount
      omega
  · intro cl hcl
    rcases List.mem_or_eq_of_mem_set hcl with hmem | heq
    · exact inv.retries cl hmem
    · rw [heq]
      exact inv.retries c0 (List.getElem?_mem hk)

theorem Inv_step_distribute {n c : Int} {s s1 : System}
    (inv : Inv n c s) (h : step s Action.distribute = some s1) : Inv n c s1 := by
  obtain ⟨e, rest, ht, rfl⟩ := step_distribute_some h
  obtain ⟨todo, wg, reg, claimers⟩ := s
  simp only at ht
  subst ht
  obtain ⟨hreg, hshape, hspawned, hbarrier, hretries⟩ := inv
  simp only [liveCount] at hbarrier
  simp only at hreg hshape hspawned hbarrier hretries
  rcases hshape with ⟨hd, hnil⟩ | ⟨k, hl | hg⟩
  · -- line 47: the registry is created
    simp only [Distribute, List.cons.injEq] at hd
    obtain ⟨rfl, rfl⟩ := hd
    subst hnil
    constructor
    · exact RegInv_nil
    · exact Or.inr ⟨n.toNat, Or.inl rfl⟩
    · simpa [applyEffect, spawns_makeRegistry] using hspawned
    · simpa [applyEffect, liveCount, pendingAdd_makeRegistry, pendingAdd_loop] using hbarrier
    · intro cl hcl
      simp [applyEffect] at hcl
  · -- line 50: wg.Add(1)
    cases k with
    | zero => simp [Distribute.loop] at hl
    | succ k =>
      simp only [Distribute.loop, List.cons.injEq] at hl
      obtain ⟨rfl, rfl⟩ := hl
      constructor
      · exact hreg
      · exact Or.inr ⟨k, Or.inr rfl⟩
      · simpa [applyEffect, spawns_wgAdd] using hspawned
      · simp only [applyEffect, liveCount, pendingAdd_wgAdd, pendingAdd_goFind] at hbarrier ⊢
        omega
      · exact hretries
  · -- line 51: the go statement
    simp only [List.cons.injEq] at hg
    obtain ⟨rfl, rfl⟩ := hg
    constructor
    · exact RegInv_spawn _ hreg
    · exact Or.inr ⟨k, Or.inl rfl⟩
    · simp only [applyEffect, spawns_goFind, List.length_append, List.length_cons,
        List.length_nil] at hspawned ⊢
      omega
    · have hnew : notDone { tries := wrapInt (find_retries * n), pc := PC.forTest 0 } = true := by
        simp [notDone]
      simp only [applyEffect, liveCount, pendingAdd_goFind, pendingAdd_loop,
        List.countP_append, List.countP_singleton, hnew, if_true] at hbarrier ⊢
      push_cast
      omega
    · intro cl hcl
      simp only [applyEffect, List.mem_append, List.mem_singleton] at hcl
      rcases hcl with hmem | heq
      · exact hretries cl hmem
      · rw [heq]

theorem Inv_step {n c : Int} {s s1 : System} {a : Action}
    (inv : Inv n c s) (h : step s a = some s1) : Inv n c s1 := by
  cases a with
  | distribute => exact Inv_step_distribute inv h
  | claimer k tid => exact Inv_step_claimer inv h

theorem Inv_exec {n c : Int} (sched : List Action) :
    ∀ {s s1 : System}, Inv n c s → exec s sched = some s1 → Inv n c s1 := by
  induction sched with
  | nil =>
    intro s s1 inv h
    simp only [exec, Option.some.injEq] at h
    exact h ▸ inv
  | cons a rest ih =>
    intro s s1 inv h
    simp only [exec] at h
    cases hs : step s a with
    | none => simp [hs] at h
    | some s2 =>
      rw [hs] at h
      exact ih (Inv_step inv hs) h

theorem Reachable_inv {n c : Int} {s : System} (h : Reachable n c s) : Inv n c s := by
  obtain ⟨sched, hs⟩ := h
  exact Inv_exec sched (Inv_start n c) hs

/-! ## Concrete runs -/

theorem reachable_registeredNotStarted : Reachable 1 0 registeredNotStarted :=
  ⟨oneClaimer 8, by decide⟩

theorem reachable_returnedNotReleased : Reachable 1 0 returnedNotReleased :=
  ⟨oneClaimer 10, by decide⟩

theorem reachable_oneFinished : Reachable 1 0 oneFinished :=
  ⟨oneClaimer 14, by decide⟩

theorem reachable_firstSpawnPending_one : Reachable 1 0 (firstSpawnPending 1) :=
  ⟨[Action.distribute, Action.distribute], by decide⟩

theorem reachable_firstSpawnPending_two : Reachable 2 0 (firstSpawnPending 2) :=
  ⟨[Action.distribute, Action.distribute], by decide⟩

theorem reachable_twoRunning : Reachable 2 0 twoRunning :=
  ⟨twoRunningSchedule, by decide⟩

/-! ## Properties of every reachable state -/

theorem liveCount_add_doneCount (s : System) :
    liveCount s + doneCount s = s.claimers.length := by
  simp only [liveCount, doneCount]
  induction s.claimers with
  | nil => rfl
  | cons a rest ih =>
    simp only [List.countP_cons, List.length_cons, notDone]
    simp only [notDone] at ih
    by_cases h : a.pc = PC.exited <;> simp [h] <;> omega

theorem pendingAdd_nonneg (es : List Effect) : 0 ≤ pendingAdd es ∧ pendingAdd es ≤ 1 := by
  cases es with
  | nil => simp [pendingAdd]
  | cons e rest => cases e <;> simp [pendingAdd]

theorem runningOn_claimOf {pc : PC} {p : Int} (h : runningOn pc = some p) :
    claimOf pc = some p := by
  cases pc <;> simp_all [runningOn, claimOf]

/-- Claim C1.  In every state reachable from `Distribute(n, wg, worker)` on an empty
registry, two goroutines that hold a claim on the same thread id are the same goroutine; so
two distinct goroutines whose worker invocations are running at the same time run under
different thread ids, both of them registered. -/
theorem claims_mutually_exclusive (n c : Int) (s : System) (h : Reachable n c s) :
    (∀ (i j : Nat) (ci cj : Claimer) (p : Int),
      s.claimers[i]? = some ci → s.claimers[j]? = some cj →
      claimOf ci.pc = some p → claimOf cj.pc = some p → i = j) ∧
    (∀ (i j : Nat) (ci cj : Claimer) (p q : Int),
      s.claimers[i]? = some ci → s.claimers[j]? = some cj → i ≠ j →
      runningOn ci.pc = some p → runningOn cj.pc = some q →
      p ≠ q ∧ p ∈ mapKeys s.reg.pids ∧ q ∈ mapKeys s.reg.pids) := by
  have inv := (Reachable_inv h).reg
  refine ⟨fun i j ci cj p hi hj hp hq => inv.excl i j ci cj p hi hj hp hq, ?_⟩
  intro i j ci cj p q hi hj hij hp hq
  have hp1 := runningOn_claimOf hp
  have hq1 := runningOn_claimOf hq
  refine ⟨?_, (inv.keys p).2 ⟨i, ci, hi, hp1⟩, (inv.keys q).2 ⟨j, cj, hj, hq1⟩⟩
  intro e
  subst e
  exact hij (inv.excl i j ci cj p hi hj hp1 hq1)

/-- Claim C1 at a concrete state: both goroutines of `Distribute(2, ...)` inside the
worker. -/
theorem claims_mutually_exclusive_witness :
    Reachable 2 0 twoRunning ∧
    (∀ (i j : Nat) (ci cj : Claimer) (p : Int),
      twoRunning.claimers[i]? = some ci → twoRunning.claimers[j]? = some cj →
      claimOf ci.pc = some p → claimOf cj.pc = some p → i = j) ∧
    (∀ (i j : Nat) (ci cj : Claimer) (p q : Int),
      twoRunning.claimers[i]? = some ci → twoRunning.claimers[j]? = some cj → i ≠ j →
      runningOn ci.pc = some p → runningOn cj.pc = some q →
      p ≠ q ∧ p ∈ mapKeys twoRunning.reg.pids ∧ q ∈ mapKeys twoRunning.reg.pids) :=
  ⟨reachable_twoRunning, claims_mutually_exclusive 2 0 twoRunning reachable_twoRunning⟩

/-- Claim C5.  In every reachable state of `Distribute(n, wg, worker)` in which all `n`
goroutines have been started and have called `wg.Done()`, the registry map has no
entries. -/
theorem registry_empty_at_completion (n c : Int) (s : System) (h : Reachable n c s)
    (_hn : s.claimers.length = n.toNat) (hdone : ∀ cl ∈ s.claimers, cl.pc = PC.exited) :
    s.reg.pids = [] := by
  have inv := (Reachable_inv h).reg
  apply mapKeys_eq_nil
  intro q hq
  obtain ⟨i, ci, hi, hc⟩ := (inv.keys q).1 hq
  have hex := hdone ci (List.getElem?_mem hi)
  rw [hex] at hc
  simp [claimOf] at hc

/-- Claim C5 at a concrete state: the single goroutine of `Distribute(1, ...)` has run the
worker on thread `5` and finished. -/
theorem registry_empty_at_completion_witness :
    Reachable 1 0 oneFinished ∧ oneFinished.claimers.length = (1 : Int).toNat ∧
    (∀ cl ∈ oneFinished.claimers, cl.pc = PC.exited) ∧ oneFinished.reg.pids = [] :=
  ⟨reachable_oneFinished, by decide, by decide,
    registry_empty_at_completion 1 0 oneFinished reachable_oneFinished
      (by decide) (by decide)⟩

/-- Claim C6 as stated fails.  In a reachable state of `Distribute(1, ...)` thread id `5` is
a key of the registry while no worker invocation is running: the goroutine has registered
the id and has not yet called the worker; likewise after the worker has returned and before
the id is deleted. -/
theorem registry_keys_not_only_running :
    (Reachable 1 0 registeredNotStarted ∧
      5 ∈ mapKeys registeredNotStarted.reg.pids ∧
      ¬ ∃ (i : Nat) (ci : Claimer),
          registeredNotStarted.claimers[i]? = some ci ∧ runningOn ci.pc = some 5) ∧
    (Reachable 1 0 returnedNotReleased ∧
      5 ∈ mapKeys returnedNotReleased.reg.pids ∧
      ¬ ∃ (i : Nat) (ci : Claimer),
          returnedNotReleased.claimers[i]? = some ci ∧ runningOn ci.pc = some 5) := by
  refine ⟨⟨reachable_registeredNotStarted, by decide, ?_⟩,
    ⟨reachable_returnedNotReleased, by decide, ?_⟩⟩
  · rintro ⟨i, ci, hi, hr⟩
    have hm := List.getElem?_mem hi
    simp only [registeredNotStarted, List.mem_singleton] at hm
    subst hm
    simp [runningOn] at hr
  · rintro ⟨i, ci, hi, hr⟩
    have hm := List.getElem?_mem hi
    simp only [returnedNotReleased, List.mem_singleton] at hm
    subst hm
    simp [runningOn] at hr

/-- Claim C6, amended.  In every reachable state the keys of the registry map are exactly
the thread ids claimed by goroutines that have registered their id (line 27) and not yet
deleted it (line 32); the thread id of every running worker invocation is among them. -/
theorem registry_keys_are_claims (n c : Int) (s : System) (h : Reachable n c s) :
    (∀ p : Int, p ∈ mapKeys s.reg.pids ↔
      ∃ (i : Nat) (ci : Claimer), s.claimers[i]? = some ci ∧ claimOf ci.pc = some p) ∧
    (∀ (i : Nat) (ci : Claimer) (p : Int), s.claimers[i]? = some ci →
      runningOn ci.pc = some p → p ∈ mapKeys s.reg.pids) := by
  have inv := (Reachable_inv h).reg
  exact ⟨inv.keys, fun i ci p hi hr => (inv.keys p).2 ⟨i, ci, hi, runningOn_claimOf hr⟩⟩

/-- Claim C6, amended, at the concrete state in which the goroutine has registered thread
`5` and not yet called the worker. -/
theorem registry_keys_are_claims_witness :
    Reachable 1 0 registeredNotStarted ∧
    (∀ p : Int, p ∈ mapKeys registeredNotStarted.reg.pids ↔
      ∃ (i : Nat) (ci : Claimer),
        registeredNotStarted.claimers[i]? = some ci ∧ claimOf ci.pc = some p) ∧
    (∀ (i : Nat) (ci : Claimer) (p : Int), registeredNotStarted.claimers[i]? = some ci →
      runningOn ci.pc = some p → p ∈ mapKeys registeredNotStarted.reg.pids) :=
  ⟨reachable_registeredNotStarted,
    registry_keys_are_claims 1 0 registeredNotStarted reachable_registeredNotStarted⟩

/-- Claim C8 as stated fails.  In `Distribute(2, wg, worker)` on a barrier with count `0`,
at the moment the first goroutine is about to be started the count is `1`, not `0 + 2`. -/
theorem barrier_not_preset_to_n :
    Reachable 2 0 (firstSpawnPending 2) ∧
    (firstSpawnPending 2).claimers = [] ∧
    pendingAdd (firstSpawnPending 2).todo = 1 ∧
    (firstSpawnPending 2).wg = 1 ∧
    (firstSpawnPending 2).wg ≠ 0 + 2 :=
  ⟨reachable_firstSpawnPending_two, by decide, by decide, by decide, by decide⟩

/-- Claim C8, amended.  Whenever `Distribute` is about to start a goroutine (the `go` of
line 51 is its next statement), it has raised the barrier once more than it has started
goroutines: the count plus the `Done` calls so far is `c` plus the number of goroutines
started plus one; in particular the count is `c + 1` when the first goroutine is started. -/
theorem barrier_raised_before_each_spawn (n c : Int) (s : System) (h : Reachable n c s)
    (hgo : pendingAdd s.todo = 1) :
    s.wg + doneCount s = c + s.claimers.length + 1 ∧
    (s.claimers = [] → s.wg = c + 1) := by
  have hb := (Reachable_inv h).barrier
  have hl := liveCount_add_doneCount s
  rw [hgo] at hb
  constructor
  · omega
  · intro hnil
    have : liveCount s = 0 := by simp [liveCount, hnil]
    omega

/-- Claim C8, amended, at the concrete state of `Distribute(2, ...)` right after the first
`wg.Add(1)`. -/
theorem barrier_raised_before_each_spawn_witness :
    pendingAdd (firstSpawnPending 2).todo = 1 ∧
    (firstSpawnPending 2).wg + doneCount (firstSpawnPending 2)
      = 0 + (firstSpawnPending 2).claimers.length + 1 ∧
    ((firstSpawnPending 2).claimers = [] → (firstSpawnPending 2).wg = 0 + 1) :=
  ⟨by decide,
    barrier_raised_before_each_spawn 2 0 (firstSpawnPending 2)
      reachable_firstSpawnPending_two (by decide)⟩

/-- Claim C10 as stated fails.  In `Distribute(1, wg, worker)` on a barrier with count `0`,
right after `wg.Add(1)` the count is `1` while no goroutine has been started. -/
theorem barrier_exceeds_live_claimers :
    Reachable 1 0 (firstSpawnPending 1) ∧
    (firstSpawnPending 1).wg = 1 ∧
    (firstSpawnPending 1).claimers = [] ∧
    liveCount (firstSpawnPending 1) = 0 ∧
    (firstSpawnPending 1).wg ≠ liveCount (firstSpawnPending 1) :=
  ⟨reachable_firstSpawnPending_one, by decide, by decide, by decide, by decide⟩

/-- Claim C10, amended.  For a barrier whose count is zero when `Distribute(n, wg, worker)`
is called, in every reachable state the count is the number of goroutines started and not
yet past `wg.Done()`, plus one while `Distribute` stands between `wg.Add(1)` and the `go`
statement; once `Distribute` has returned, all `n` goroutines have been started, the count
is the number of those not yet past `wg.Done()`, and it is zero exactly when all of them
are past it; the count is never negative. -/
theorem barrier_counts_live_claimers (n : Int) (s : System) (h : Reachable n 0 s) :
    s.wg = liveCount s + pendingAdd s.todo ∧
    (returned s →
      s.claimers.length = n.toNat ∧ s.wg = liveCount s ∧
      (s.wg = 0 ↔ ∀ cl ∈ s.claimers, cl.pc = PC.exited)) ∧
    0 ≤ s.wg := by
  have inv := Reachable_inv h
  have hb := inv.barrier
  have hp := pendingAdd_nonneg s.todo
  refine ⟨by omega, ?_, by omega⟩
  intro hret
  have hsp := inv.spawned
  simp only [returned] at hret
  rw [hret] at hb hsp
  have hb1 : s.wg = liveCount s := by
    simp only [pendingAdd] at hb
    omega
  refine ⟨by simpa [spawns] using hsp, hb1, ?_⟩
  rw [hb1]
  simp only [liveCount, Nat.cast_eq_zero, List.countP_eq_zero, notDone, ne_eq,
    decide_eq_true_eq, not_not]

/-- Claim C10, amended, at the concrete state in which the single goroutine of
`Distribute(1, ...)` has finished. -/
theorem barrier_counts_live_claimers_witness :
    oneFinished.wg = liveCount oneFinished + pendingAdd oneFinished.todo ∧
    (returned oneFinished →
      oneFinished.claimers.length = (1 : Int).toNat ∧ oneFinished.wg = liveCount oneFinished ∧
      (oneFinished.wg = 0 ↔ ∀ cl ∈ oneFinished.claimers, cl.pc = PC.exited)) ∧
    0 ≤ oneFinished.wg :=
  barrier_counts_live_claimers 1 oneFinished reachable_oneFinished

/-- Once `Distribute` has returned on a barrier that started at zero, a zero count (the
condition under which `wg.Wait()` returns) means the registry map is empty. -/
theorem registry_empty_when_barrier_zero (n : Int) (s : System) (h : Reachable n 0 s)
    (hret : returned s) (hz : s.wg = 0) : s.reg.pids = [] := by
  have inv := Reachable_inv h
  have hb := inv.barrier
  simp only [returned] at hret
  rw [hret, hz] at hb
  have hlive : liveCount s = 0 := by
    simp only [pendingAdd] at hb
    omega
  simp only [liveCount, List.countP_eq_zero, notDone, ne_eq, decide_eq_true_eq,
    not_not] at hlive
  apply mapKeys_eq_nil
  intro q hq
  obtain ⟨i, ci, hi, hc⟩ := (inv.reg.keys q).1 hq
  rw [hlive ci (List.getElem?_mem hi)] at hc
  simp [claimOf] at hc

/-! ## The two semantics of `find_unused_thread` agree -/

/-- The statements a goroutine executes between reading its thread id and unlocking, lines
26-27 or 26/36 of the interleaving semantics, compute `tryClaim`: on success the goroutine
reaches line 28 with the map `tryClaim` returns, on failure it reaches line 37 with the map
unchanged. -/
theorem critical_section_agrees (tid tries i pid : Int) (reg : pidRegistry) (wg : Int) :
    ((tryClaim reg.pids pid).1 = true ∧
      claimerStep tid tries (PC.check26 i pid) reg wg = some (PC.register27 pid, reg, wg) ∧
      claimerStep tid tries (PC.register27 pid) reg wg
        = some (PC.unlock28 pid, { reg with pids := (tryClaim reg.pids pid).2 }, wg)) ∨
    ((tryClaim reg.pids pid).1 = false ∧ (tryClaim reg.pids pid).2 = reg.pids ∧
      claimerStep tid tries (PC.check26 i pid) reg wg = some (PC.unlock37 i, reg, wg)) := by
  cases hl : mapLookup reg.pids pid with
  | none => simp [tryClaim, claimerStep, hl]
  | some b => simp [tryClaim, claimerStep, hl]

theorem exec_append (a b : List Action) :
    ∀ s : System, exec s (a ++ b) = (exec s a).bind (fun s1 => exec s1 b) := by
  induction a with
  | nil =>
    intro s
    rfl
  | cons x rest ih =>
    intro s
    simp only [List.cons_append, exec]
    cases hs : step s x with
    | none => rfl
    | some s1 => exact ih s1

/-- Run alone in the interleaving semantics, a goroutine whose run returns ends with the
registry map its calls produce, the mutex free, and the barrier lowered by exactly one. -/
theorem solo_loop_agrees (tries : Int) (obs : Nat → Int) (m : PidMap) (w : Int)
    (fuel : Nat) :
    ∀ (k : Nat) (i : Int),
      (find_unused_thread.loop tries (fun j => (obs j, m)) fuel k i).2 = true →
      exec (solo tries i m w) (soloSchedule tries obs m fuel k i)
        = some { todo := [], wg := w - 1,
                 reg := { pids := replay m
                            (find_unused_thread.loop tries (fun j => (obs j, m)) fuel k i).1,
                          lock := false },
                 claimers := [{ tries := tries, pc := PC.exited }] } := by
  induction fuel with
  | zero =>
    intro k i h
    simp [loop_zero] at h
  | succ fuel ih =>
    intro k i h
    by_cases hi : i ≤ tries
    · by_cases hk : obs k ∈ mapKeys m
      · have hl : mapLookup m (obs k) ≠ none :=
          fun hn => (mapLookup_eq_none_iff m _).1 hn hk
        obtain ⟨b, hb⟩ := Option.ne_none_iff_exists'.1 hl
        rw [loop_taken tries (fun j => (obs j, m)) fuel k i hi hk] at h ⊢
        have hnext := ih (k + 1) (wrapInt (i + 1)) h
        simp only [solo] at hnext
        simp only [soloSchedule, hi, if_true, tryClaim_of_taken m (obs k) hk,
          Bool.false_eq_true, if_false]
        rw [exec_append]
        simp only [List.replicate, exec, step, solo, claimerStep, hi, hb, if_true,
          List.getElem?_cons_zero, List.set_cons_zero, Bool.false_eq_true, if_false,
          Option.bind]
        rw [hnext]
        simp [replay, failedCalls]
      · have hl : mapLookup m (obs k) = none := (mapLookup_eq_none_iff m _).2 hk
        rw [loop_free tries (fun j => (obs j, m)) fuel k i hi hk]
        simp [soloSchedule, tryClaim_of_free m (obs k) hk, List.replicate, exec, step, solo,
          claimerStep, hi, hl, replay, claimedCalls]
    · rw [loop_exit tries (fun j => (obs j, m)) fuel k i hi]
      simp [soloSchedule, List.replicate, exec, step, solo, claimerStep, hi, replay,
        giveUpCalls]

/-- The goroutine `find_unused_thread(tries, wg, reg, worker)` run alone in the
interleaving semantics agrees with the function `find_unused_thread`. -/
theorem solo_agrees (tries : Int) (obs : Nat → Int) (m : PidMap) (w : Int) (fuel : Nat)
    (h : (find_unused_thread tries (fun j => (obs j, m)) fuel).2 = true) :
    exec (solo tries 0 m w) (soloSchedule tries obs m fuel 0 0)
      = some { todo := [], wg := w - 1,
               reg := { pids := replay m
                          (find_unused_thread tries (fun j => (obs j, m)) fuel).1,
                        lock := false },
               claimers := [{ tries := tries, pc := PC.exited }] } :=
  solo_loop_agrees tries obs m w fuel 0 0 h

/-- In the state `siblingRunning i` with `i <= 2000` an attempt of the second goroutine
that reads thread id `5` fails and leaves it at the loop test with the counter
incremented. -/
theorem sibling_attempt_fails (i : Int) (hle : i ≤ 2000) :
    exec (siblingRunning i) (List.replicate 7 (Action.claimer 1 5))
      = some (siblingRunning (wrapInt (i + 1))) := by
  simp [List.replicate, exec, step, siblingRunning, claimerStep, hle, mapLookup]

/-- In the state `siblingRunning i` with `i > 2000` the second goroutine leaves the loop,
logs the give-up line and signals the barrier. -/
theorem sibling_exits (i : Int) (hgt : ¬ i ≤ 2000) :
    exec (siblingRunning i) (List.replicate 3 (Action.claimer 1 5)) = some siblingGaveUp := by
  simp [List.replicate, exec, step, siblingRunning, siblingGaveUp, claimerStep, hgt]

/-- In the state `siblingRunning i` the second goroutine, reading thread id `5` at every
attempt, uses up its remaining attempts and gives up. -/
theorem sibling_gives_up (r : Nat) :
    ∀ i : Nat, r = 2001 - i →
      exec (siblingRunning i)
          (List.replicate (7 * r) (Action.claimer 1 5)
            ++ List.replicate 3 (Action.claimer 1 5))
        = some siblingGaveUp := by
  induction r with
  | zero =>
    intro i hr
    rw [Nat.mul_zero, List.replicate_zero, List.nil_append]
    exact sibling_exits i (by omega)
  | succ r ih =>
    intro i hr
    have hw : wrapInt ((i : Int) + 1) = ((i + 1 : Nat) : Int) := by
      rw [wrapInt_succ_of_lt i (Int.natCast_nonneg i) (by omega)]
      push_cast
      rfl
    rw [show 7 * (r + 1) = 7 + 7 * r by omega, List.replicate_add, List.append_assoc,
      exec_append, sibling_attempt_fails i (by omega), Option.some_bind, hw]
    exact ih (i + 1) (by omega)

/-- The give-up exit is reachable in the interleaving semantics: in `Distribute(2, ...)`
the first goroutine claims thread `5` and stays inside the worker while the second reads
thread id `5` at each of its `2001` attempts, gives up and signals the barrier. -/
theorem reachable_siblingGaveUp : Reachable 2 0 siblingGaveUp := by
  refine ⟨(List.replicate 5 Action.distribute ++ (successfulRun 0 5).take 9)
    ++ (List.replicate (7 * 2001) (Action.claimer 1 5)
      ++ List.replicate 3 (Action.claimer 1 5)), ?_⟩
  have h1 : exec (start 2 0)
      (List.replicate 5 Action.distribute ++ (successfulRun 0 5).take 9)
      = some (siblingRunning ((0 : Nat) : Int)) := by decide
  rw [exec_append, h1, Option.some_bind]
  exact sibling_gives_up 2001 0 (by omega)

end workers
